import Mathlib

/-!
# Verification of the VGA line generator and the audio pitch estimator

Shallow embedding of `src/VGA.cpp` and `src/Audio.cpp` (ATmega328, avr-gcc:
`int` is 16 bits wide, `float` is IEEE binary32).

* Global variables become fields of a state structure; an interrupt handler
  becomes a function from state to state.
* `uint8_t`/`uint16_t` values are `Nat` with an explicit `% 2 ^ w` where the
  code can wrap; `int`/`int16_t` values are `Int` with `wrapInt16`.
* Writes to the output port `PORTD` are collected in a list, oldest first.
-/

namespace Firmware

/-! ## Machine integers -/

/-- Two's-complement wrap of an integer into the 16-bit range of `int`. -/
def wrapInt16 (x : Int) : Int := (x + 32768) % 65536 - 32768

/-! ## `VGA.h`, `VGA.cpp` -/

/-- The `#define SCREEN_W 40` of `VGA.h`. -/
abbrev SCREEN_W : Nat := 40

/-- The `#define SCREEN_H 30` of `VGA.h`. -/
abbrev SCREEN_H : Nat := 30

/-- Bit number of port pin PD2 (`<avr/io.h>`). -/
abbrev PD2 : Nat := 2

/-- The array type `uint8_t [SCREEN_H][SCREEN_W]` of `PXL_DATA`. -/
abbrev Grid := Fin SCREEN_H → Fin SCREEN_W → Nat

/-- The globals of `VGA.cpp`. -/
structure VGAState where
  PXL_DATA : Grid
  lineCounter : Int
  skipLine : Nat
  PXL_OUT : Nat

/-- The assignment `PXL_DATA[r][c] = v`. -/
def setCell (g : Grid) (r c : Nat) (v : Nat) : Grid :=
  fun i j => if i.val = r ∧ j.val = c then v % 256 else g i j

/-- The byte at offset `addr` (in bytes, from `&PXL_DATA[0][0]`) of the array;
`none` when the offset lies outside the array. -/
def readPixel (g : Grid) (addr : Int) : Option Nat :=
  if h : 0 ≤ addr ∧ addr < SCREEN_H * SCREEN_W then
    some (g ⟨addr.toNat / SCREEN_W, by
            have h1 : addr.toNat < SCREEN_H * SCREEN_W := by omega
            exact Nat.div_lt_of_lt_mul (by simpa [Nat.mul_comm] using h1)⟩
            ⟨addr.toNat % SCREEN_W, Nat.mod_lt _ (by decide)⟩)
  else none

/-- `ISR(TIMER1_OVF_vect)`: the vertical-sync event. -/
def TIMER1_OVF_vect (s : VGAState) : VGAState :=
  { s with lineCounter := 0 }

/-- The row index `(lineCounter - 35) >> 4` of the line handler, in 16-bit
`int` arithmetic with an arithmetic right shift. -/
def rowIndex (lineCounter : Int) : Int :=
  wrapInt16 (lineCounter - 35) >>> (4 : Nat)

/-- The loop `while (columnCounter--) { PORTD = (*(rowPtr++)) << PD2; }`:
the values written to the 8-bit port, in order; `none` when a read leaves
the array. -/
def emitLoop (g : Grid) : Nat → Int → Option (List Nat)
  | 0, _ => some []
  | columnCounter + 1, rowPtr =>
    match readPixel g rowPtr, emitLoop g columnCounter (rowPtr + 1) with
    | some b, some rest => some ((b <<< PD2) % 256 :: rest)
    | _, _ => none

/-- The pixel writes of `case 1` of the line handler: `rowPtr` starts at
`&PXL_DATA[rowIndex][0]` and `columnCounter` at `SCREEN_W`. -/
def pixelOutputs (s : VGAState) : Option (List Nat) :=
  emitLoop s.PXL_DATA SCREEN_W (SCREEN_W * rowIndex s.lineCounter)

/-- All writes to `PORTD` of one run of `ISR(TIMER2_COMPB_vect)`: nothing
unless `PXL_OUT` is 1, else the pixel writes followed by `PORTD = 0`. -/
def portWrites (s : VGAState) : Option (List Nat) :=
  if s.PXL_OUT = 1 then (pixelOutputs s).map (fun ws => ws ++ [0]) else some []

/-- `ISR(TIMER2_COMPB_vect)`: the horizontal-line event, as a state change
(the `switch` writes only to the port). -/
def TIMER2_COMPB_vect (s : VGAState) : VGAState :=
  let lineCounter := wrapInt16 (s.lineCounter + 1)
  let skipLine := if s.skipLine = 0 then 1 else 0
  { s with
    lineCounter := lineCounter
    skipLine := skipLine
    PXL_OUT := if skipLine ≠ 0 ∧ 35 ≤ lineCounter ∧ lineCounter < 515 then 1 else 0 }

/-- The two nested loops of `setupVGA` that clear the pixel buffer. -/
def clearGrid (g : Grid) : Grid :=
  (List.range SCREEN_H).foldl
    (fun g r => (List.range SCREEN_W).foldl (fun g c => setCell g r c 1) g) g

/-- `setupVGA`, restricted to the globals (the timer registers are hardware). -/
def setupVGA (s : VGAState) : VGAState :=
  { PXL_DATA := clearGrid s.PXL_DATA, lineCounter := 0, skipLine := 0, PXL_OUT := 0 }

/-- The two timer events that drive the line state. -/
inductive VGAEvent where
  | vsync
  | hline
deriving DecidableEq

/-- One event: the handler of its interrupt runs to completion. -/
def step (s : VGAState) : VGAEvent → VGAState
  | .vsync => TIMER1_OVF_vect s
  | .hline => TIMER2_COMPB_vect s

/-- A sequence of events, oldest first. -/
def runVGA (s : VGAState) (es : List VGAEvent) : VGAState :=
  es.foldl step s

/-- The line index lies in the active-display range of the line handler. -/
def visible (lineCounter : Int) : Bool :=
  decide (35 ≤ lineCounter ∧ lineCounter < 515)

/-- Every vertical-sync event of the sequence fires while the line index is
outside the active-display range (in the vertical blanking interval). -/
def vsyncInBlanking : VGAState → List VGAEvent → Bool
  | _, [] => true
  | s, .vsync :: es => !visible s.lineCounter && vsyncInBlanking (step s .vsync) es
  | s, .hline :: es => vsyncInBlanking (step s .hline) es

/-! ## IEEE binary32 arithmetic (`float` of avr-gcc) -/

/-- Number of binary digits of `n` (0 for 0), by repeated halving; the first
argument bounds the number of halvings. -/
def bitLength : Nat → Nat → Nat
  | 0, _ => 0
  | fuel + 1, n => if n = 0 then 0 else bitLength fuel (n / 2) + 1

/-- A non-negative finite binary32 value `mant * 2 ^ exp`: `mant` is 0 or has
exactly 24 binary digits. The exponent is not bounded here: the values of this
program (0, and magnitudes between 2^-7 and 2^23) are far from the overflow
and subnormal ranges. -/
structure F32 where
  mant : Nat
  exp : Int
deriving DecidableEq

namespace F32

/-- The binary32 value nearest to the quotient `n / d` (round to nearest, ties
to even); 0 when `d = 0`, a case the program never reaches. -/
def roundQuot (n d : Nat) : F32 :=
  if n = 0 ∨ d = 0 then ⟨0, 0⟩ else
    let l : Int := (bitLength n n : Int) - (bitLength d d : Int)
    -- `2 ^ (l - 1) < n / d < 2 ^ (l + 1)`: is `2 ^ l ≤ n / d` ?
    let ge : Bool := if 0 ≤ l then d * 2 ^ l.toNat ≤ n else d ≤ n * 2 ^ (-l).toNat
    -- exponent of the last of the 24 digits
    let e : Int := (if ge then l else l - 1) - 23
    let num := n * 2 ^ (-e).toNat
    let den := d * 2 ^ e.toNat
    let q := num / den
    let r := num % den
    let q1 := if den < 2 * r ∨ (2 * r = den ∧ q % 2 = 1) then q + 1 else q
    if q1 = 2 ^ 24 then ⟨2 ^ 23, e + 1⟩ else ⟨q1, e⟩

/-- The conversion `(float)n` of an unsigned integer. -/
def ofNat (n : Nat) : F32 := roundQuot n 1

/-- The division `x / y`. -/
def div (x y : F32) : F32 :=
  roundQuot (x.mant * 2 ^ (x.exp - y.exp).toNat) (y.mant * 2 ^ (y.exp - x.exp).toNat)

/-- The comparison `x < k` with an integer constant `k` (exact). -/
def ltNat (x : F32) (k : Nat) : Bool :=
  if 0 ≤ x.exp then x.mant * 2 ^ x.exp.toNat < k else x.mant < k * 2 ^ (-x.exp).toNat

/-- The integer part of `x`, as the conversion to an unsigned integer
truncates it. -/
def trunc (x : F32) : Nat :=
  if 0 ≤ x.exp then x.mant * 2 ^ x.exp.toNat else x.mant / 2 ^ (-x.exp).toNat

/-- The comparison `x ≤ k` with an integer constant `k` (exact); used to state
bounds, the program has no such comparison. -/
def leNat (x : F32) (k : Nat) : Bool :=
  if 0 ≤ x.exp then x.mant * 2 ^ x.exp.toNat ≤ k else x.mant ≤ k * 2 ^ (-x.exp).toNat

end F32

/-! ## `Audio.cpp` -/

/-- The globals of `Audio.cpp` that the handler writes. -/
structure AudioState where
  detectedFreqHz : Nat
  adcSampleCount : Nat
  zeroCrossings : Nat
  lastSample : Int
  samplesInWindow : Nat
  freqAvailableCounter : Nat
deriving DecidableEq

/-- The global `adcSampleRate`; it is initialised to `125000UL` and never
assigned. -/
def adcSampleRate : Nat := 125000

/-- The `#define SAMPLE_WINDOW 1024`. -/
def SAMPLE_WINDOW : Nat := 1024

/-- The initial values of the globals. -/
def initAudio : AudioState :=
  { detectedFreqHz := 0, adcSampleCount := 0, zeroCrossings := 0, lastSample := 0,
    samplesInWindow := 0, freqAvailableCounter := 0 }

/-- `int16_t centered = (int16_t)val - 512` for the `uint16_t val` read from
the converter. -/
def centered (val : Nat) : Int := wrapInt16 (wrapInt16 (val : Int) - 512)

/-- Lines 16 to 26 of `ISR(ADC_vect)`: the counters and the zero-crossing
test, up to the window check. -/
def sampleStep (s : AudioState) (val : Nat) : AudioState :=
  { s with
    samplesInWindow := (s.samplesInWindow + 1) % 65536
    adcSampleCount := (s.adcSampleCount + 1) % 65536
    zeroCrossings :=
      if s.lastSample ≤ 0 ∧ centered val > 0 then (s.zeroCrossings + 1) % 65536
      else s.zeroCrossings
    lastSample := centered val }

/-- `float windowTime = ((float)SAMPLE_WINDOW) / (float)adcSampleRate`. -/
def windowTime : F32 := F32.div (F32.ofNat SAMPLE_WINDOW) (F32.ofNat adcSampleRate)

/-- `float freq = ((float)zeroCrossings) / windowTime`. -/
def windowFreq (zeroCrossings : Nat) : F32 := F32.div (F32.ofNat zeroCrossings) windowTime

/-- The value assigned to `detectedFreqHz` at window close:
`(uint16_t)freq` if `freq < 10000.0`, else 0. -/
def publishedFreq (zeroCrossings : Nat) : Nat :=
  if (windowFreq zeroCrossings).ltNat 10000 then (windowFreq zeroCrossings).trunc % 65536
  else 0

/-- Lines 28 to 43 of `ISR(ADC_vect)`: the window check and the window
close. -/
def windowClose (s : AudioState) : AudioState :=
  if s.samplesInWindow ≥ SAMPLE_WINDOW then
    { s with
      detectedFreqHz := publishedFreq s.zeroCrossings
      samplesInWindow := 0
      zeroCrossings := 0
      freqAvailableCounter := (s.freqAvailableCounter + 1) % 65536 }
  else s

/-- `ISR(ADC_vect)`, with the converter result `val`. -/
def ADC_vect (s : AudioState) (val : Nat) : AudioState :=
  windowClose (sampleStep s val)

/-- The handler run once per sample, oldest sample first. -/
def runADC (s : AudioState) (vals : List Nat) : AudioState :=
  vals.foldl ADC_vect s

/-- The first `n` samples of the input `x`, as the handler receives them. -/
def samples (x : Nat → Nat) (n : Nat) : List Nat := (List.range n).map x

/-- The zero-crossing count at the close of the window that starts in state
`s` and receives the input `x`: the count after the counting part of the
last of the `SAMPLE_WINDOW` handler runs, before the reset. -/
def countAtClose (s : AudioState) (x : Nat → Nat) : Nat :=
  (sampleStep (runADC s (samples x (SAMPLE_WINDOW - 1))) (x (SAMPLE_WINDOW - 1))).zeroCrossings

/-- The sample that precedes sample `n` of the input `x`, where `last` precedes
sample 0. -/
def prevSample (last : Int) (x : Nat → Nat) : Nat → Int
  | 0 => last
  | n + 1 => centered (x n)

/-- The number of indices `i < n` at which the sample before is not positive
and sample `i` is positive. -/
def crossings (last : Int) (x : Nat → Nat) : Nat → Nat
  | 0 => 0
  | n + 1 => crossings last x n +
      (if prevSample last x n ≤ 0 ∧ centered (x n) > 0 then 1 else 0)

/-- A two-level input of period `p`, `h` samples high then `p - h` samples
low, advanced by `phase` samples. -/
def squareWave (p h phase : Nat) (i : Nat) : Nat :=
  if (i + phase) % p < h then 1023 else 0

/-! ## `Game.cpp`: `drawGame` -/

/-- The `struct Pipe`. -/
structure Pipe where
  x : Int
  gapY : Int
  active : Bool

/-- The `#define MAX_PIPES 6`. -/
abbrev MAX_PIPES : Nat := 6

/-- The `#define BIRD_X 6`. -/
abbrev BIRD_X : Int := 6

/-- The globals of `Game.cpp` that `drawGame` reads or writes. -/
structure GameState where
  frameCount : Nat
  birdY : Int
  pipes : Fin MAX_PIPES → Pipe
  score : Int
  gameOver : Bool

/-- The pixel buffer while `drawGame` runs, the cell `(row, column)` of every
assignment to `PXL_DATA` so far (oldest first), and whether execution is
still under way: `running` is false once a loop has used up its iteration
budget without reaching its exit. -/
structure DrawState where
  grid : Grid
  writes : List (Int × Int)
  running : Bool

/-- The byte store at offset `addr` (in bytes, from `&PXL_DATA[0][0]`); a
store outside the array hits other memory and leaves the array as it is. -/
def writePixel (g : Grid) (addr : Int) (v : Nat) : Grid :=
  if 0 ≤ addr ∧ addr < SCREEN_H * SCREEN_W then
    setCell g (addr.toNat / SCREEN_W) (addr.toNat % SCREEN_W) v
  else g

/-- The assignment `PXL_DATA[r][c] = v` inside `drawGame`. -/
def writeCell (d : DrawState) (r c : Int) (v : Nat) : DrawState :=
  if d.running then
    { d with
      grid := writePixel d.grid (SCREEN_W * r + c) v
      writes := d.writes ++ [(r, c)] }
  else d

/-- The loop `for (int i = start; cond(i); ++i) body(i)` over a 16-bit `int`
counter, run for at most `fuel` iterations: when the budget is used up and
the condition still holds, execution stops there (`running := false`). -/
def forInt (cond : Int → Bool) (body : Int → DrawState → DrawState) :
    Nat → Int → DrawState → DrawState
  | 0, i, d => if d.running && cond i then { d with running := false } else d
  | fuel + 1, i, d =>
    if d.running && cond i then forInt cond body fuel (wrapInt16 (i + 1)) (body i d) else d

/-- The loops `for (r = 0; r < SCREEN_H; ++r) for (c = 0; c < SCREEN_W; ++c)
PXL_DATA[r][c] = 1` that clear the buffer. -/
def drawClear (d : DrawState) : DrawState :=
  (List.range SCREEN_H).foldl
    (fun d (r : Nat) =>
      (List.range SCREEN_W).foldl (fun d (c : Nat) => writeCell d r c 1) d) d

/-- The bird: `for (r = by - 1; r <= by + 1; ++r) for (c = bx; c < bx + 2; ++c)`
with the guarded assignment of 0. -/
def drawBird (fuel : Nat) (birdY : Int) (d : DrawState) : DrawState :=
  forInt (fun r => decide (r ≤ wrapInt16 (birdY + 1)))
    (fun r d =>
      forInt (fun c => decide (c < wrapInt16 (BIRD_X + 2)))
        (fun c d =>
          if r ≥ 0 ∧ r < SCREEN_H ∧ c ≥ 0 ∧ c < SCREEN_W then writeCell d r c 0 else d)
        fuel BIRD_X d)
    fuel (wrapInt16 (birdY - 1)) d

/-- One pipe: nothing if it is not active, else for each row outside the gap
`gap .. gap + 3` the loop `for (c = px; c < px + 2; ++c)` with the guarded
assignment of 0. -/
def drawPipe (fuel : Nat) (p : Pipe) (d : DrawState) : DrawState :=
  if !p.active then d
  else
    (List.range SCREEN_H).foldl
      (fun d (r : Nat) =>
        if (r : Int) ≥ p.gapY ∧ (r : Int) ≤ wrapInt16 (p.gapY + 3) then d
        else
          forInt (fun c => decide (c < wrapInt16 (p.x + 2)))
            (fun c d =>
              if c ≥ 0 ∧ c < SCREEN_W ∧ (r : Int) ≥ 0 ∧ (r : Int) < SCREEN_H then
                writeCell d r c 0
              else d)
            fuel p.x d)
      d

/-- The loop `for (i = 0; i < MAX_PIPES; ++i)` over the pipes. -/
def drawPipes (fuel : Nat) (pipes : Fin MAX_PIPES → Pipe) (d : DrawState) : DrawState :=
  (List.finRange MAX_PIPES).foldl (fun d i => drawPipe fuel (pipes i) d) d

/-- The ground line: `PXL_DATA[SCREEN_H - 1][c] = 0` for `c` in `0 .. SCREEN_W - 1`. -/
def drawGround (d : DrawState) : DrawState :=
  (List.range SCREEN_W).foldl (fun d (c : Nat) => writeCell d (SCREEN_H - 1 : Nat) c 0) d

/-- The score bar: `sc = score % (SCREEN_W - 2)` (the remainder of C++, which
has the sign of `score`) and `for (c = 0; c < sc; ++c) PXL_DATA[0][c] = 0`. -/
def drawScore (fuel : Nat) (score : Int) (d : DrawState) : DrawState :=
  forInt (fun c => decide (c < Int.tmod score (SCREEN_W - 2 : Nat)))
    (fun c d => writeCell d 0 c 0) fuel 0 d

/-- The game-over flash: if `gameOver` and bit 2 of `frameCount` is set, the
loops `for (r = 1; r < SCREEN_H - 1; ++r) for (c = 1; c < SCREEN_W - 1; ++c)
PXL_DATA[r][c] = 0`. -/
def drawGameOver (st : GameState) (d : DrawState) : DrawState :=
  if st.gameOver then
    if (st.frameCount >>> 2) &&& 1 ≠ 0 then
      (List.range' 1 (SCREEN_H - 2)).foldl
        (fun d (r : Nat) =>
          (List.range' 1 (SCREEN_W - 2)).foldl (fun d (c : Nat) => writeCell d r c 0) d) d
    else d
  else d

/-- `drawGame`, with `fuel` the iteration budget of each of its loops with a
variable bound: the game state after the call and the pixel buffer with the
record of the assignments made. -/
def drawGame (fuel : Nat) (st : GameState) (g : Grid) : GameState × DrawState :=
  ({ st with frameCount := (st.frameCount + 1) % 65536 },
    drawGameOver st
      (drawScore fuel st.score
        (drawGround
          (drawPipes fuel st.pipes
            (drawBird fuel st.birdY
              (drawClear ⟨g, [], true⟩))))))

/-- The `int` fields of the game state hold 16-bit values. -/
def GameState.wellFormed (st : GameState) : Prop :=
  (-32768 ≤ st.birdY ∧ st.birdY ≤ 32767) ∧
  (∀ i, -32768 ≤ (st.pipes i).x ∧ (st.pipes i).x ≤ 32767)

/-! ## Properties of the drawing state -/

/-- A property of the drawing state is kept by `drawGame` after the clear if
it is kept by every assignment of 0 or 1 to a cell inside the grid, and when
execution stops. -/
structure Kept (P : DrawState → Prop) : Prop where
  write : ∀ (d : DrawState) (r c : Int) (v : Nat),
    0 ≤ r → r < SCREEN_H → 0 ≤ c → c < SCREEN_W → v ≤ 1 → P d → P (writeCell d r c v)
  stop : ∀ d, P d → P { d with running := false }

/-- Every assignment so far addressed a cell of the grid. -/
def writesInBounds (d : DrawState) : Prop :=
  ∀ w, w ∈ d.writes → 0 ≤ w.1 ∧ w.1 < SCREEN_H ∧ 0 ≤ w.2 ∧ w.2 < SCREEN_W

/-- Every cell of the buffer holds 0 or 1. -/
def gridBinary (d : DrawState) : Prop :=
  ∀ i j, d.grid i j = 0 ∨ d.grid i j = 1

/-! # Helper lemmas -/

/-! ## Line state: helper lemmas -/

theorem wrapInt16_of_range (x : Int) (h1 : -32768 ≤ x) (h2 : x < 32768) :
    wrapInt16 x = x := by
  unfold wrapInt16
  omega

theorem rowIndex_eq_div (L : Int) (h1 : -32733 ≤ L) (h2 : L < 32768) :
    rowIndex L = (L - 35) / 16 := by
  unfold rowIndex
  rw [wrapInt16_of_range _ (by omega) (by omega), Int.shiftRight_eq_div_pow]
  norm_num

theorem hline_PXL_OUT (s : VGAState) :
    (TIMER2_COMPB_vect s).PXL_OUT = 1 →
      35 ≤ (TIMER2_COMPB_vect s).lineCounter ∧ (TIMER2_COMPB_vect s).lineCounter < 515 := by
  simp only [TIMER2_COMPB_vect]
  intro h
  by_contra hc
  rw [if_neg (fun hh => hc hh.2)] at h
  exact absurd h (by decide)

/-- The invariant behind the blanking-interval schedule. -/
theorem inv_of_vsyncInBlanking (es : List VGAEvent) :
    ∀ s : VGAState, (s.PXL_OUT = 1 → 35 ≤ s.lineCounter ∧ s.lineCounter < 515) →
      vsyncInBlanking s es = true →
      (runVGA s es).PXL_OUT = 1 →
        35 ≤ (runVGA s es).lineCounter ∧ (runVGA s es).lineCounter < 515 := by
  induction es with
  | nil => intro s hs _ h; exact hs h
  | cons e es ih =>
    intro s hs hb
    cases e with
    | vsync =>
      simp only [vsyncInBlanking, Bool.and_eq_true, Bool.not_eq_true', visible,
        decide_eq_false_iff_not] at hb
      have hstep : runVGA s (VGAEvent.vsync :: es) = runVGA (step s .vsync) es := rfl
      rw [hstep]
      refine ih _ ?_ hb.2
      intro h1
      have : s.PXL_OUT = 1 := h1
      exact absurd (hs this) hb.1
    | hline =>
      simp only [vsyncInBlanking] at hb
      have hstep : runVGA s (VGAEvent.hline :: es) = runVGA (step s .hline) es := rfl
      rw [hstep]
      exact ih _ (hline_PXL_OUT s) hb

/-! ## Pixel dispatcher: helper lemmas -/

theorem readPixel_cell (g : Grid) (r : Fin SCREEN_H) (c : Fin SCREEN_W) :
    readPixel g ((SCREEN_W : Int) * (r.val : Int) + (c.val : Int)) = some (g r c) := by
  have hr : r.val < 30 := r.isLt
  have hc : c.val < 40 := c.isLt
  have h : 0 ≤ (SCREEN_W : Int) * (r.val : Int) + (c.val : Int) ∧
      (SCREEN_W : Int) * (r.val : Int) + (c.val : Int) < SCREEN_H * SCREEN_W := by
    simp only [SCREEN_W, SCREEN_H]
    constructor <;> push_cast <;> omega
  unfold readPixel
  rw [dif_pos h]
  have ht : ((SCREEN_W : Int) * (r.val : Int) + (c.val : Int)).toNat = 40 * r.val + c.val := by
    simp only [SCREEN_W]
    push_cast
    omega
  congr 2
  · apply Fin.ext
    simp only [ht, SCREEN_W]
    omega
  · apply Fin.ext
    simp only [ht, SCREEN_W]
    omega

theorem emitLoop_row (g : Grid) (r : Fin SCREEN_H) :
    ∀ n c : Nat, c + n = SCREEN_W →
      emitLoop g n ((SCREEN_W : Int) * (r.val : Int) + (c : Int)) =
        some (((List.finRange SCREEN_W).drop c).map (fun j => (g r j <<< PD2) % 256)) := by
  intro n
  induction n with
  | zero =>
    intro c hc
    have : c = SCREEN_W := by omega
    subst this
    simp [emitLoop]
  | succ n ih =>
    intro c hc
    have hlt : c < SCREEN_W := by omega
    have hnext := ih (c + 1) (by omega)
    have hcast : (SCREEN_W : Int) * (r.val : Int) + ((c + 1 : Nat) : Int) =
        (SCREEN_W : Int) * (r.val : Int) + (c : Int) + 1 := by
      push_cast
      ring
    rw [hcast] at hnext
    have hread := readPixel_cell g r ⟨c, hlt⟩
    simp only at hread
    have hdrop : (List.finRange SCREEN_W).drop c =
        (⟨c, hlt⟩ : Fin SCREEN_W) :: (List.finRange SCREEN_W).drop (c + 1) := by
      rw [List.drop_eq_getElem_cons (by simpa using hlt)]
      simp
    rw [emitLoop, hread, hnext, hdrop]
    simp

theorem pixelOutputs_row (s : VGAState) (r : Fin SCREEN_H)
    (hr : rowIndex s.lineCounter = (r.val : Int)) :
    pixelOutputs s = some (List.ofFn (fun c : Fin SCREEN_W => (s.PXL_DATA r c <<< PD2) % 256)) := by
  have h := emitLoop_row s.PXL_DATA r SCREEN_W 0 (by simp)
  simp only [Nat.cast_zero, add_zero, List.drop_zero] at h
  rw [pixelOutputs, hr, h, List.ofFn_eq_map]

theorem rowIndex_lt (L : Int) (h1 : 35 ≤ L) (h2 : L < 515) :
    0 ≤ rowIndex L ∧ rowIndex L < SCREEN_H := by
  rw [rowIndex_eq_div L (by omega) (by omega)]
  simp only [SCREEN_H]
  constructor <;> push_cast <;> omega

theorem rowIndex_eq_shift (L : Int) (h1 : 35 ≤ L) (h2 : L < 515) :
    rowIndex L = (L - 35) >>> (4 : Nat) := by
  rw [rowIndex_eq_div L (by omega) (by omega), Int.shiftRight_eq_div_pow]
  norm_num

/-! ## Audio sampler: helper lemmas -/

theorem centered_of_le (v : Nat) (hv : v ≤ 1023) : centered v = (v : Int) - 512 := by
  unfold centered
  rw [wrapInt16_of_range (v : Int) (by omega) (by omega),
    wrapInt16_of_range _ (by omega) (by omega)]

theorem crossings_le (last : Int) (x : Nat → Nat) (n : Nat) : crossings last x n ≤ n := by
  induction n with
  | zero => simp [crossings]
  | succ n ih =>
    rw [crossings]
    split <;> omega

theorem samples_succ (x : Nat → Nat) (n : Nat) : samples x (n + 1) = samples x n ++ [x n] := by
  simp [samples, List.range_succ]

theorem runADC_append (s : AudioState) (vals : List Nat) (v : Nat) :
    runADC s (vals ++ [v]) = ADC_vect (runADC s vals) v := by
  simp [runADC, List.foldl_append]

theorem windowClose_of_lt (s : AudioState) (h : s.samplesInWindow < SAMPLE_WINDOW) :
    windowClose s = s := by
  unfold windowClose
  rw [if_neg (by omega)]

/-- Before the window closes the handler only counts: after `n < SAMPLE_WINDOW`
samples from a window start the counters are `n` and `crossings`. -/
theorem runADC_openWindow (s : AudioState) (x : Nat → Nat)
    (hs : s.samplesInWindow = 0) (hz : s.zeroCrossings = 0) :
    ∀ n, n < SAMPLE_WINDOW →
      (runADC s (samples x n)).samplesInWindow = n ∧
      (runADC s (samples x n)).zeroCrossings = crossings s.lastSample x n ∧
      (runADC s (samples x n)).lastSample = prevSample s.lastSample x n ∧
      (runADC s (samples x n)).detectedFreqHz = s.detectedFreqHz := by
  intro n
  induction n with
  | zero =>
    intro _
    exact ⟨hs, hz, rfl, rfl⟩
  | succ n ih =>
    intro hn
    have hn' : n + 1 < 1024 := hn
    obtain ⟨h1, h2, h3, h4⟩ := ih (by omega)
    have hc := crossings_le s.lastSample x n
    rw [samples_succ, runADC_append, ADC_vect]
    have hsw : (sampleStep (runADC s (samples x n)) (x n)).samplesInWindow = n + 1 := by
      simp only [sampleStep, h1]
      omega
    rw [windowClose_of_lt _ (by rw [hsw]; exact hn)]
    refine ⟨hsw, ?_, rfl, h4⟩
    simp only [sampleStep, h2, h3, crossings]
    split
    · omega
    · omega

/-- The counting part of the handler run after `n < SAMPLE_WINDOW` samples. -/
theorem sampleStep_openWindow (s : AudioState) (x : Nat → Nat)
    (hs : s.samplesInWindow = 0) (hz : s.zeroCrossings = 0) (n : Nat)
    (hn : n < SAMPLE_WINDOW) :
    (sampleStep (runADC s (samples x n)) (x n)).samplesInWindow = n + 1 ∧
    (sampleStep (runADC s (samples x n)) (x n)).zeroCrossings =
      crossings s.lastSample x (n + 1) := by
  have hn' : n < 1024 := hn
  obtain ⟨h1, h2, h3, _⟩ := runADC_openWindow s x hs hz n hn
  have hc := crossings_le s.lastSample x n
  constructor
  · simp only [sampleStep, h1]
    omega
  · simp only [sampleStep, h2, h3, crossings]
    split
    · omega
    · omega

/-- The count at window close is the number of crossings of the window. -/
theorem countAtClose_eq (s : AudioState) (x : Nat → Nat)
    (hs : s.samplesInWindow = 0) (hz : s.zeroCrossings = 0) :
    countAtClose s x = crossings s.lastSample x SAMPLE_WINDOW := by
  have h := (sampleStep_openWindow s x hs hz (SAMPLE_WINDOW - 1) (Nat.lt_succ_self _)).2
  rw [countAtClose, h]
  rfl

/-- The handler run that completes the window publishes the estimate of the
count at window close and resets both counters. -/
theorem runADC_window (s : AudioState) (x : Nat → Nat)
    (hs : s.samplesInWindow = 0) (hz : s.zeroCrossings = 0) :
    (runADC s (samples x SAMPLE_WINDOW)).detectedFreqHz = publishedFreq (countAtClose s x) ∧
    (runADC s (samples x SAMPLE_WINDOW)).samplesInWindow = 0 ∧
    (runADC s (samples x SAMPLE_WINDOW)).zeroCrossings = 0 := by
  have h1 := (sampleStep_openWindow s x hs hz (SAMPLE_WINDOW - 1) (Nat.lt_succ_self _)).1
  have hsw : (sampleStep (runADC s (samples x (SAMPLE_WINDOW - 1)))
      (x (SAMPLE_WINDOW - 1))).samplesInWindow ≥ SAMPLE_WINDOW := by
    rw [h1]
    exact Nat.le_refl _
  have hsplit : samples x SAMPLE_WINDOW =
      samples x (SAMPLE_WINDOW - 1) ++ [x (SAMPLE_WINDOW - 1)] :=
    samples_succ x (SAMPLE_WINDOW - 1)
  rw [hsplit, runADC_append, ADC_vect, windowClose, if_pos hsw, countAtClose]
  simp only [and_self]

/-! ## Crossing counts of flat and of two-level periodic inputs -/

theorem crossings_of_nonpos (last : Int) (x : Nat → Nat) (n : Nat)
    (h : ∀ i, i < n → centered (x i) ≤ 0) : crossings last x n = 0 := by
  induction n with
  | zero => rfl
  | succ n ih =>
    have h1 := h n (Nat.lt_succ_self n)
    rw [crossings, ih (fun i hi => h i (Nat.lt_succ_of_lt hi)), if_neg (by omega)]

theorem prevSample_pos (last : Int) (x : Nat → Nat) (n : Nat) (hl : 0 < last)
    (h : ∀ i, i < n → 0 < centered (x i)) : 0 < prevSample last x n := by
  cases n with
  | zero => exact hl
  | succ n => exact h n (Nat.lt_succ_self n)

theorem crossings_of_pos (last : Int) (x : Nat → Nat) (n : Nat) (hl : 0 < last)
    (h : ∀ i, i < n → 0 < centered (x i)) : crossings last x n = 0 := by
  induction n with
  | zero => rfl
  | succ n ih =>
    have hp := prevSample_pos last x n hl (fun i hi => h i (Nat.lt_succ_of_lt hi))
    rw [crossings, ih (fun i hi => h i (Nat.lt_succ_of_lt hi)), if_neg (by omega)]

theorem crossings_of_pos_first (last : Int) (x : Nat → Nat) (n : Nat) (hl : last ≤ 0)
    (h : ∀ i, i < n + 1 → 0 < centered (x i)) : crossings last x (n + 1) = 1 := by
  induction n with
  | zero =>
    have e1 : crossings last x (0 + 1) =
        0 + (if last ≤ 0 ∧ centered (x 0) > 0 then 1 else 0) := rfl
    rw [e1, if_pos ⟨hl, h 0 (Nat.lt_succ_self 0)⟩]
  | succ n ih =>
    have e1 : crossings last x (n + 1 + 1) = crossings last x (n + 1) +
        (if centered (x n) ≤ 0 ∧ centered (x (n + 1)) > 0 then 1 else 0) := rfl
    have hn := h n (by omega)
    rw [e1, ih (fun i hi => h i (Nat.lt_succ_of_lt hi)), if_neg (by omega)]

theorem succ_mod_eq (m p : Nat) (hp : 0 < p) :
    (m + 1) % p = if m % p + 1 = p then 0 else m % p + 1 := by
  have hlt := Nat.mod_lt m hp
  have h : (m + 1) % p = (m % p + 1) % p := by
    conv_lhs => rw [← Nat.mod_add_div m p]
    rw [Nat.add_right_comm, Nat.add_mul_mod_self_left]
  rw [h]
  split
  · rename_i e
    rw [e, Nat.mod_self]
  · exact Nat.mod_eq_of_lt (by omega)

/-- The crossings of an input that is positive on the first `h` phases of a
period `p` and negative on the others: one per period start inside the
window, plus the first sample when it is positive and `last` is not. -/
theorem crossings_square (last : Int) (x : Nat → Nat) (p h φ N : Nat)
    (hh0 : 0 < h) (hh1 : h < p) (hφ : φ < p)
    (hpos : ∀ i, i < N → (i + φ) % p < h → 0 < centered (x i))
    (hneg : ∀ i, i < N → h ≤ (i + φ) % p → centered (x i) < 0) :
    ∀ n, n < N →
      crossings last x (n + 1) = (if last ≤ 0 ∧ φ < h then 1 else 0) + (n + φ) / p := by
  have hp : 0 < p := by omega
  have sign : ∀ i, i < N → (0 < centered (x i) ↔ (i + φ) % p < h) := by
    intro i hi
    constructor
    · intro hc
      by_contra hlt
      have := hneg i hi (by omega)
      omega
    · exact hpos i hi
  intro n
  induction n with
  | zero =>
    intro h0
    have hs := sign 0 h0
    rw [Nat.zero_add, Nat.mod_eq_of_lt hφ] at hs
    have e0 : (0 + φ) / p = 0 := by
      rw [Nat.zero_add]
      exact Nat.div_eq_of_lt hφ
    have e1 : crossings last x (0 + 1) =
        0 + (if last ≤ 0 ∧ centered (x 0) > 0 then 1 else 0) := rfl
    rw [e0, e1, Nat.zero_add, Nat.add_zero]
    by_cases hc : last ≤ 0 ∧ φ < h
    · rw [if_pos hc, if_pos ⟨hc.1, hs.2 hc.2⟩]
    · rw [if_neg hc, if_neg (fun hh => hc ⟨hh.1, hs.1 hh.2⟩)]
  | succ n ih =>
    intro hn
    have hs0 := sign n (by omega)
    have hs1 := sign (n + 1) hn
    have hidx : n + 1 + φ = n + φ + 1 := by omega
    rw [hidx, succ_mod_eq _ _ hp] at hs1
    have hlt := Nat.mod_lt (n + φ) hp
    have e1 : crossings last x (n + 1 + 1) = crossings last x (n + 1) +
        (if centered (x n) ≤ 0 ∧ centered (x (n + 1)) > 0 then 1 else 0) := rfl
    have hd : p ∣ n + φ + 1 ↔ (n + φ) % p + 1 = p := by
      rw [Nat.dvd_iff_mod_eq_zero, succ_mod_eq _ _ hp]
      split
      · simp [*]
      · simp [*]
    have hite : (if centered (x n) ≤ 0 ∧ centered (x (n + 1)) > 0 then 1 else 0) =
        (if p ∣ n + φ + 1 then 1 else 0) := by
      by_cases hc : (n + φ) % p + 1 = p
      · rw [if_pos hc] at hs1
        rw [if_pos (hd.2 hc), if_pos]
        refine ⟨?_, hs1.2 hh0⟩
        by_contra hcon
        have := hs0.1 (by omega)
        omega
      · rw [if_neg hc] at hs1
        rw [if_neg (fun hh => hc (hd.1 hh)), if_neg]
        intro hh
        have h1 := hs1.1 hh.2
        have h2 : ¬ (n + φ) % p < h := fun hlt2 => by
          have := hs0.2 hlt2
          omega
        omega
    rw [e1, ih (by omega), hidx, Nat.succ_div, hite, Nat.add_assoc]

theorem centered_pos_of (v : Nat) (h : 512 < v ∧ v ≤ 1023) : 0 < centered v := by
  rw [centered_of_le v h.2]
  omega

theorem centered_neg_of (v : Nat) (h : v < 512) : centered v < 0 := by
  rw [centered_of_le v (by omega)]
  omega

theorem squareWave_pos (p h φ i : Nat) (hi : (i + φ) % p < h) :
    512 < squareWave p h φ i ∧ squareWave p h φ i ≤ 1023 := by
  rw [squareWave, if_pos hi]
  decide

theorem squareWave_neg (p h φ i : Nat) (hi : h ≤ (i + φ) % p) :
    squareWave p h φ i < 512 := by
  rw [squareWave, if_neg (by omega)]
  decide

/-- The count at window close of a two-level periodic input. -/
theorem countAtClose_square (s : AudioState) (x : Nat → Nat) (p h φ : Nat)
    (hs : s.samplesInWindow = 0) (hz : s.zeroCrossings = 0)
    (hh0 : 0 < h) (hh1 : h < p) (hφ : φ < p)
    (hpos : ∀ i, i < 1024 → (i + φ) % p < h → 512 < x i ∧ x i ≤ 1023)
    (hneg : ∀ i, i < 1024 → h ≤ (i + φ) % p → x i < 512) :
    countAtClose s x = (if s.lastSample ≤ 0 ∧ φ < h then 1 else 0) + (1023 + φ) / p := by
  rw [countAtClose_eq s x hs hz]
  exact crossings_square s.lastSample x p h φ 1024 hh0 hh1 hφ
    (fun i hi hm => centered_pos_of _ (hpos i hi hm))
    (fun i hi hm => centered_neg_of _ (hneg i hi hm)) 1023 (by decide)

/-! ## Frequency estimator: the published value for the counts of a window -/

set_option maxRecDepth 100000 in
/-- For every count a window can hold, the binary32 computation passes the
gate exactly when the exact quotient `z * 125000 / 1024` does not exceed
10000, and then its integer part is the integer part of the exact quotient. -/
theorem publishedFreq_table : ∀ z : Nat, z < 1025 →
    (windowFreq z).ltNat 10000 = decide (z * 125000 ≤ 10000 * 1024) ∧
    publishedFreq z = if 10000 * 1024 < z * 125000 then 0 else z * 125000 / 1024 := by
  decide!

theorem windowClose_detectedFreqHz (s : AudioState) (hw : s.samplesInWindow ≥ SAMPLE_WINDOW) :
    (windowClose s).detectedFreqHz = publishedFreq s.zeroCrossings := by
  rw [windowClose, if_pos hw]

theorem countAtClose_le (s : AudioState) (x : Nat → Nat)
    (hs : s.samplesInWindow = 0) (hz : s.zeroCrossings = 0) :
    countAtClose s x ≤ 1024 := by
  rw [countAtClose_eq s x hs hz]
  exact crossings_le _ _ _

/-! ## Window counters: the invariant between handler runs -/

/-- Between handler runs the count never exceeds the number of samples of the
open window, which is below the window size. -/
theorem ADC_vect_inv (s : AudioState) (v : Nat)
    (h : s.zeroCrossings ≤ s.samplesInWindow ∧ s.samplesInWindow < SAMPLE_WINDOW) :
    (sampleStep s v).samplesInWindow = s.samplesInWindow + 1 ∧
    (sampleStep s v).zeroCrossings ≤ (sampleStep s v).samplesInWindow ∧
    (ADC_vect s v).zeroCrossings ≤ (ADC_vect s v).samplesInWindow ∧
    (ADC_vect s v).samplesInWindow < SAMPLE_WINDOW := by
  obtain ⟨h1, h2⟩ := h
  have h2' : s.samplesInWindow < 1024 := h2
  have hsw : (sampleStep s v).samplesInWindow = s.samplesInWindow + 1 := by
    simp only [sampleStep]
    omega
  have hzc : (sampleStep s v).zeroCrossings ≤ (sampleStep s v).samplesInWindow := by
    rw [hsw]
    simp only [sampleStep]
    split <;> omega
  refine ⟨hsw, hzc, ?_⟩
  rw [ADC_vect, windowClose]
  by_cases hc : (sampleStep s v).samplesInWindow ≥ SAMPLE_WINDOW
  · rw [if_pos hc]
    exact ⟨Nat.le_refl _, (by decide : 0 < SAMPLE_WINDOW)⟩
  · rw [if_neg hc]
    exact ⟨hzc, by omega⟩

theorem runADC_inv (vals : List Nat) :
    ∀ s : AudioState,
      s.zeroCrossings ≤ s.samplesInWindow ∧ s.samplesInWindow < SAMPLE_WINDOW →
      (runADC s vals).zeroCrossings ≤ (runADC s vals).samplesInWindow ∧
        (runADC s vals).samplesInWindow < SAMPLE_WINDOW := by
  induction vals with
  | nil => intro s h; exact h
  | cons v vals ih =>
    intro s h
    exact ih (ADC_vect s v) (ADC_vect_inv s v h).2.2

theorem abs_sub_div_le (z p : Nat) (hp : 0 < p) (h1 : 1024 ≤ p * z + p)
    (h2 : p * z ≤ 1024 + p) : |(z : ℚ) - 1024 / (p : ℚ)| ≤ 1 := by
  have hp' : (0 : ℚ) < p := by exact_mod_cast hp
  have h1' : (1024 : ℚ) ≤ p * z + p := by exact_mod_cast h1
  have h2' : (p : ℚ) * z ≤ 1024 + p := by exact_mod_cast h2
  have key : (z : ℚ) - 1024 / (p : ℚ) = ((p : ℚ) * z - 1024) / p := by
    field_simp
    ring
  rw [key, abs_le]
  constructor
  · rw [le_div_iff₀ hp']
    linarith
  · rw [div_le_iff₀ hp']
    linarith

/-! ## Clearing the pixel buffer -/

theorem foldl_setCell_row (r : Nat) (i : Fin SCREEN_H) (j : Fin SCREEN_W) :
    ∀ (m : Nat) (g : Grid),
      ((List.range m).foldl (fun g c => setCell g r c 1) g) i j =
        if i.val = r ∧ j.val < m then 1 else g i j := by
  intro m
  induction m with
  | zero => intro g; simp
  | succ m ih =>
    intro g
    rw [List.range_succ m, List.foldl_append, List.foldl_cons, List.foldl_nil, setCell, ih]
    by_cases h1 : i.val = r
    · by_cases h2 : j.val = m
      · simp [h1, h2]
      · by_cases h3 : j.val < m
        · have : j.val < m + 1 := by omega
          simp [h1, h2, h3, this]
        · have : ¬ j.val < m + 1 := by omega
          simp [h1, h2, h3, this]
    · simp [h1]

theorem foldl_clear_rows (i : Fin SCREEN_H) (j : Fin SCREEN_W) :
    ∀ (n : Nat) (g : Grid),
      ((List.range n).foldl
        (fun g r => (List.range SCREEN_W).foldl (fun g c => setCell g r c 1) g) g) i j =
        if i.val < n then 1 else g i j := by
  intro n
  induction n with
  | zero => intro g; simp
  | succ n ih =>
    intro g
    rw [List.range_succ n, List.foldl_append, List.foldl_cons, List.foldl_nil,
      foldl_setCell_row, ih]
    have hj : j.val < SCREEN_W := j.isLt
    by_cases h1 : i.val = n
    · simp [h1, hj]
    · by_cases h3 : i.val < n
      · have : i.val < n + 1 := by omega
        simp [h1, h3, this]
      · have : ¬ i.val < n + 1 := by omega
        simp [h1, h3, this]

theorem clearGrid_cell (g : Grid) (i : Fin SCREEN_H) (j : Fin SCREEN_W) :
    clearGrid g i j = 1 := by
  rw [clearGrid, foldl_clear_rows, if_pos i.isLt]

/-! ## The published value is below the gate -/

theorem publishedFreq_lt (z : Nat) : publishedFreq z < 10000 := by
  unfold publishedFreq
  split
  · rename_i h
    have hlt : (windowFreq z).trunc < 10000 := by
      unfold F32.ltNat at h
      unfold F32.trunc
      split
      · rename_i he
        rw [if_pos he] at h
        exact of_decide_eq_true h
      · rename_i he
        rw [if_neg he] at h
        have h' := of_decide_eq_true h
        exact (Nat.div_lt_iff_lt_mul (Nat.pos_pow_of_pos _ (by decide))).2 h'
    exact lt_of_le_of_lt (Nat.mod_le _ _) hlt
  · decide

theorem ADC_vect_detectedFreqHz_lt (s : AudioState) (v : Nat)
    (h : s.detectedFreqHz < 10000) : (ADC_vect s v).detectedFreqHz < 10000 := by
  rw [ADC_vect, windowClose]
  split
  · exact publishedFreq_lt _
  · exact h

theorem runADC_detectedFreqHz_lt (vals : List Nat) :
    ∀ s : AudioState, s.detectedFreqHz < 10000 → (runADC s vals).detectedFreqHz < 10000 := by
  induction vals with
  | nil => intro s h; exact h
  | cons v vals ih =>
    intro s h
    exact ih (ADC_vect s v) (ADC_vect_detectedFreqHz_lt s v h)

/-! ## Line state after `n` horizontal-line events -/

theorem runVGA_append (s : VGAState) (es : List VGAEvent) (e : VGAEvent) :
    runVGA s (es ++ [e]) = step (runVGA s es) e := by
  simp [runVGA, List.foldl_append]

/-- From the state set up by `setupVGA`, `n` horizontal-line events with no
vertical sync leave `lineCounter = n`, the flag set on odd lines, and the
output enabled on the odd lines of the active range. -/
theorem runVGA_hlines (s0 : VGAState) :
    ∀ n : Nat, n ≤ 32767 →
      (runVGA (setupVGA s0) (List.replicate n VGAEvent.hline)).lineCounter = (n : Int) ∧
      (runVGA (setupVGA s0) (List.replicate n VGAEvent.hline)).skipLine = n % 2 ∧
      (runVGA (setupVGA s0) (List.replicate n VGAEvent.hline)).PXL_OUT =
        if n % 2 = 1 ∧ 35 ≤ n ∧ n < 515 then 1 else 0 := by
  intro n
  induction n with
  | zero =>
    intro _
    exact ⟨rfl, rfl, rfl⟩
  | succ n ih =>
    intro hn
    obtain ⟨h1, h2, _⟩ := ih (by omega)
    rw [List.replicate_succ', runVGA_append]
    have hw : wrapInt16 ((n : Int) + 1) = (n : Int) + 1 :=
      wrapInt16_of_range _ (by omega) (by omega)
    simp only [step, TIMER2_COMPB_vect, h1, h2, hw]
    refine ⟨by push_cast; rfl, ?_, ?_⟩
    · split <;> omega
    · by_cases hc : (n + 1) % 2 = 1 ∧ 35 ≤ n + 1 ∧ n + 1 < 515
      · rw [if_pos hc, if_pos]
        refine ⟨?_, by omega, by omega⟩
        rw [if_pos (by omega)]
        decide
      · rw [if_neg hc, if_neg]
        intro hh
        apply hc
        obtain ⟨ha, hb, hd⟩ := hh
        refine ⟨?_, by omega, by omega⟩
        by_contra hpar
        rw [if_neg (by omega)] at ha
        exact ha rfl

/-! ## The published value between window closes -/

theorem runADC_append_list (s : AudioState) (l1 l2 : List Nat) :
    runADC s (l1 ++ l2) = runADC (runADC s l1) l2 := by
  simp [runADC, List.foldl_append]

theorem samples_add (x : Nat → Nat) (a b : Nat) :
    samples x (a + b) = samples x a ++ samples (fun i => x (a + i)) b := by
  induction b with
  | zero => simp [samples]
  | succ b ih =>
    rw [← Nat.add_assoc, samples_succ, ih, samples_succ, List.append_assoc]

/-- The state after a whole number of windows is a window start. -/
theorem runADC_windows (x : Nat → Nat) :
    ∀ k : Nat,
      (runADC initAudio (samples x (SAMPLE_WINDOW * k))).samplesInWindow = 0 ∧
      (runADC initAudio (samples x (SAMPLE_WINDOW * k))).zeroCrossings = 0 := by
  intro k
  induction k with
  | zero => exact ⟨rfl, rfl⟩
  | succ k ih =>
    rw [Nat.mul_succ, samples_add, runADC_append_list]
    exact (runADC_window _ _ ih.1 ih.2).2

/-! ## No two consecutive crossings -/

/-- Between handler runs the count is at most half the samples of the open
window, rounded up when the last sample was positive. -/
theorem ADC_vect_half (s : AudioState) (v : Nat)
    (h : (0 < s.lastSample → 2 * s.zeroCrossings ≤ s.samplesInWindow + 1) ∧
      (s.lastSample ≤ 0 → 2 * s.zeroCrossings ≤ s.samplesInWindow) ∧
      s.samplesInWindow < SAMPLE_WINDOW) :
    2 * (sampleStep s v).zeroCrossings ≤ (sampleStep s v).samplesInWindow + 1 ∧
    (sampleStep s v).samplesInWindow ≤ SAMPLE_WINDOW ∧
    ((0 < (ADC_vect s v).lastSample →
        2 * (ADC_vect s v).zeroCrossings ≤ (ADC_vect s v).samplesInWindow + 1) ∧
      ((ADC_vect s v).lastSample ≤ 0 →
        2 * (ADC_vect s v).zeroCrossings ≤ (ADC_vect s v).samplesInWindow) ∧
      (ADC_vect s v).samplesInWindow < SAMPLE_WINDOW) := by
  obtain ⟨h1, h2, h3⟩ := h
  have h3' : s.samplesInWindow < 1024 := h3
  have hsw : (sampleStep s v).samplesInWindow = s.samplesInWindow + 1 := by
    simp only [sampleStep]
    omega
  have hls : (sampleStep s v).lastSample = centered v := rfl
  have hpos : 0 < (sampleStep s v).lastSample →
      2 * (sampleStep s v).zeroCrossings ≤ (sampleStep s v).samplesInWindow + 1 := by
    intro hp
    rw [hsw]
    simp only [sampleStep]
    split
    · rename_i hc
      have := h2 hc.1
      omega
    · by_cases hl : 0 < s.lastSample
      · have := h1 hl
        omega
      · have := h2 (by omega)
        omega
  have hneg : (sampleStep s v).lastSample ≤ 0 →
      2 * (sampleStep s v).zeroCrossings ≤ (sampleStep s v).samplesInWindow := by
    intro hn
    rw [hls] at hn
    rw [hsw]
    simp only [sampleStep]
    rw [if_neg (by omega)]
    by_cases hl : 0 < s.lastSample
    · have := h1 hl
      omega
    · have := h2 (by omega)
      omega
  have hall : 2 * (sampleStep s v).zeroCrossings ≤ (sampleStep s v).samplesInWindow + 1 := by
    by_cases hl : 0 < (sampleStep s v).lastSample
    · exact hpos hl
    · have := hneg (by omega)
      omega
  refine ⟨hall, by rw [hsw]; exact h3, ?_⟩
  rw [ADC_vect, windowClose]
  by_cases hc : (sampleStep s v).samplesInWindow ≥ SAMPLE_WINDOW
  · rw [if_pos hc]
    exact ⟨fun _ => Nat.zero_le _, fun _ => Nat.le_refl _, (by decide : 0 < SAMPLE_WINDOW)⟩
  · rw [if_neg hc]
    exact ⟨hpos, hneg, by omega⟩

theorem runADC_half (vals : List Nat) :
    ∀ s : AudioState,
      ((0 < s.lastSample → 2 * s.zeroCrossings ≤ s.samplesInWindow + 1) ∧
        (s.lastSample ≤ 0 → 2 * s.zeroCrossings ≤ s.samplesInWindow) ∧
        s.samplesInWindow < SAMPLE_WINDOW) →
      ((0 < (runADC s vals).lastSample →
          2 * (runADC s vals).zeroCrossings ≤ (runADC s vals).samplesInWindow + 1) ∧
        ((runADC s vals).lastSample ≤ 0 →
          2 * (runADC s vals).zeroCrossings ≤ (runADC s vals).samplesInWindow) ∧
        (runADC s vals).samplesInWindow < SAMPLE_WINDOW) := by
  induction vals with
  | nil => intro s h; exact h
  | cons v vals ih =>
    intro s h
    exact ih (ADC_vect s v) (ADC_vect_half s v h).2.2

set_option maxRecDepth 100000 in
/-- For every count up to 512 the binary32 frequency is at most 62500. -/
theorem windowFreq_le_table : ∀ z : Nat, z < 513 →
    (windowFreq z).leNat 62500 = true := by
  decide!

/-! ## `drawGame`: what every assignment to the pixel buffer satisfies -/

theorem foldl_inv {α β : Type} (P : α → Prop) (f : α → β → α) (l : List β) :
    ∀ a : α, P a → (∀ a b, b ∈ l → P a → P (f a b)) → P (l.foldl f a) := by
  induction l with
  | nil => intro a h _; exact h
  | cons b l ih =>
    intro a h hf
    exact ih (f a b) (hf a b (List.mem_cons_self b l) h)
      (fun a' b' hb' => hf a' b' (List.mem_cons_of_mem b hb'))

/-- Loop rule: a property of the drawing state kept by the loop body for the
counter values the loop can reach, and kept when execution stops, holds after
the loop. -/
theorem forInt_inv (P : DrawState → Prop) (Q : Int → Prop) (cond : Int → Bool)
    (body : Int → DrawState → DrawState)
    (hstop : ∀ d, P d → P { d with running := false })
    (hQ : ∀ i, Q i → cond i = true → Q (wrapInt16 (i + 1)))
    (hbody : ∀ i d, Q i → cond i = true → P d → P (body i d)) :
    ∀ (fuel : Nat) (i : Int) (d : DrawState), Q i → P d → P (forInt cond body fuel i d) := by
  intro fuel
  induction fuel with
  | zero =>
    intro i d _ hP
    rw [forInt]
    split
    · exact hstop d hP
    · exact hP
  | succ fuel ih =>
    intro i d hq hP
    rw [forInt]
    split
    · rename_i hc
      have hci : cond i = true := by
        rw [Bool.and_eq_true] at hc
        exact hc.2
      exact ih _ _ (hQ i hq hci) (hbody i d hq hci hP)
    · exact hP

theorem drawClear_kept (P : DrawState → Prop) (hP : Kept P) (d : DrawState) (h : P d) :
    P (drawClear d) := by
  refine foldl_inv P _ _ d h (fun d r hr hd => ?_)
  refine foldl_inv P _ _ d hd (fun d c hc hd => ?_)
  have hr' : r < 30 := List.mem_range.1 hr
  have hc' : c < 40 := List.mem_range.1 hc
  exact hP.write d r c 1 (by omega) (by simp only [SCREEN_H]; omega) (by omega)
    (by simp only [SCREEN_W]; omega) (Nat.le_refl 1) hd

theorem drawBird_kept (P : DrawState → Prop) (hP : Kept P) (fuel : Nat) (birdY : Int)
    (d : DrawState) (h : P d) : P (drawBird fuel birdY d) := by
  refine forInt_inv P (fun _ => True) _ _ hP.stop (fun _ _ _ => trivial) ?_ fuel _ d trivial h
  intro r d _ _ hd
  refine forInt_inv P (fun _ => True) _ _ hP.stop (fun _ _ _ => trivial) ?_ fuel _ d trivial hd
  intro c d _ _ hd
  split
  · rename_i hg
    exact hP.write d r c 0 hg.1 hg.2.1 hg.2.2.1 hg.2.2.2 (Nat.zero_le 1) hd
  · exact hd

theorem drawPipe_kept (P : DrawState → Prop) (hP : Kept P) (fuel : Nat) (p : Pipe)
    (d : DrawState) (h : P d) : P (drawPipe fuel p d) := by
  rw [drawPipe]
  split
  · exact h
  · refine foldl_inv P _ _ d h (fun d r _ hd => ?_)
    split
    · exact hd
    · refine forInt_inv P (fun _ => True) _ _ hP.stop (fun _ _ _ => trivial) ?_ fuel _ d
        trivial hd
      intro c d _ _ hd
      split
      · rename_i hg
        exact hP.write d r c 0 hg.2.2.1 hg.2.2.2 hg.1 hg.2.1 (Nat.zero_le 1) hd
      · exact hd

theorem drawPipes_kept (P : DrawState → Prop) (hP : Kept P) (fuel : Nat)
    (pipes : Fin MAX_PIPES → Pipe) (d : DrawState) (h : P d) :
    P (drawPipes fuel pipes d) :=
  foldl_inv P _ _ d h (fun d i _ hd => drawPipe_kept P hP fuel (pipes i) d hd)

theorem drawGround_kept (P : DrawState → Prop) (hP : Kept P) (d : DrawState) (h : P d) :
    P (drawGround d) := by
  refine foldl_inv P _ _ d h (fun d c hc hd => ?_)
  have hc' : c < 40 := List.mem_range.1 hc
  exact hP.write d _ c 0 (by decide) (by decide) (by omega)
    (by simp only [SCREEN_W]; omega) (Nat.zero_le 1) hd

theorem drawScore_kept (P : DrawState → Prop) (hP : Kept P) (fuel : Nat) (score : Int)
    (d : DrawState) (h : P d) : P (drawScore fuel score d) := by
  have hsc : Int.tmod score ((SCREEN_W - 2 : Nat) : Int) < 38 :=
    Int.tmod_lt_of_pos score (by decide)
  refine forInt_inv P (fun i => 0 ≤ i ∧ i ≤ 37) _ _ hP.stop ?_ ?_ fuel 0 d
    ⟨Int.le_refl 0, by decide⟩ h
  · intro i hi hc
    have hlt := of_decide_eq_true hc
    rw [wrapInt16_of_range _ (by omega) (by omega)]
    omega
  · intro i d hi hc hd
    have hlt := of_decide_eq_true hc
    exact hP.write d 0 i 0 (by decide) (by decide) hi.1 (by simp only [SCREEN_W]; omega)
      (Nat.zero_le 1) hd

theorem drawGameOver_kept (P : DrawState → Prop) (hP : Kept P) (st : GameState)
    (d : DrawState) (h : P d) : P (drawGameOver st d) := by
  rw [drawGameOver]
  split
  · split
    · refine foldl_inv P _ _ d h (fun d r hr hd => ?_)
      refine foldl_inv P _ _ d hd (fun d c hc hd => ?_)
      have hr' := List.mem_range'_1.1 hr
      have hc' := List.mem_range'_1.1 hc
      exact hP.write d r c 0 (by omega) (by simp only [SCREEN_H] at hr' ⊢; omega) (by omega)
        (by simp only [SCREEN_W] at hc' ⊢; omega) (Nat.zero_le 1) hd
    · exact h
  · exact h

/-- Every property kept by in-grid assignments of 0 or 1 that holds after the
clear holds when `drawGame` is done, or wherever it stops. -/
theorem drawGame_kept (P : DrawState → Prop) (hP : Kept P) (fuel : Nat) (st : GameState)
    (g : Grid) (h : P (drawClear ⟨g, [], true⟩)) : P (drawGame fuel st g).2 :=
  drawGameOver_kept P hP st _
    (drawScore_kept P hP fuel st.score _
      (drawGround_kept P hP _
        (drawPipes_kept P hP fuel st.pipes _
          (drawBird_kept P hP fuel st.birdY _ h))))

/-! ## `drawGame`: the addresses and the values written -/

theorem writesInBounds_kept : Kept writesInBounds := by
  constructor
  · intro d r c v h1 h2 h3 h4 _ hd
    rw [writeCell]
    split
    · intro w hw
      rcases List.mem_append.1 hw with hw | hw
      · exact hd w hw
      · rw [List.mem_singleton] at hw
        subst hw
        exact ⟨h1, h2, h3, h4⟩
    · exact hd
  · intro d hd
    exact hd

theorem writePixel_binary (g : Grid) (addr : Int) (v : Nat) (hv : v ≤ 1)
    (hg : ∀ i j, g i j = 0 ∨ g i j = 1) (i : Fin SCREEN_H) (j : Fin SCREEN_W) :
    writePixel g addr v i j = 0 ∨ writePixel g addr v i j = 1 := by
  rw [writePixel]
  split
  · rw [setCell]
    split
    · omega
    · exact hg i j
  · exact hg i j

theorem gridBinary_kept : Kept gridBinary := by
  constructor
  · intro d r c v _ _ _ _ hv hd
    rw [writeCell]
    split
    · exact fun i j => writePixel_binary d.grid _ v hv hd i j
    · exact hd
  · intro d hd
    exact hd

theorem stopped_kept : Kept (fun d => d.running = false) := by
  constructor
  · intro d r c v _ _ _ _ _ hd
    rw [writeCell, if_neg (by simp [hd])]
    exact hd
  · intro d _
    rfl

theorem writeCell_running (d : DrawState) (r c : Int) (v : Nat) (h : d.running = true) :
    (writeCell d r c v).running = true := by
  rw [writeCell, if_pos h]
  exact h

theorem writeCell_grid (d : DrawState) (r c : Nat) (v : Nat) (h : d.running = true)
    (hr : r < SCREEN_H) (hc : c < SCREEN_W) :
    (writeCell d r c v).grid = setCell d.grid r c v := by
  have hr' : r < 30 := hr
  have hc' : c < 40 := hc
  have hin : 0 ≤ (SCREEN_W : Int) * (r : Int) + (c : Int) ∧
      (SCREEN_W : Int) * (r : Int) + (c : Int) < SCREEN_H * SCREEN_W := by
    simp only [SCREEN_W, SCREEN_H]
    constructor <;> push_cast <;> omega
  have ht : ((SCREEN_W : Int) * (r : Int) + (c : Int)).toNat = 40 * r + c := by
    simp only [SCREEN_W]
    push_cast
    omega
  have hg : (writeCell d r c v).grid =
      writePixel d.grid ((SCREEN_W : Int) * (r : Int) + (c : Int)) v := by
    rw [writeCell, if_pos h]
  rw [hg, writePixel, if_pos hin, ht]
  have e1 : (40 * r + c) / SCREEN_W = r := by
    simp only [SCREEN_W]
    omega
  have e2 : (40 * r + c) % SCREEN_W = c := by
    simp only [SCREEN_W]
    omega
  rw [e1, e2]

theorem foldl_writeCell_row (r : Nat) (hr : r < SCREEN_H) (l : List Nat) :
    (∀ c, c ∈ l → c < SCREEN_W) → ∀ d : DrawState, d.running = true →
      (l.foldl (fun d (c : Nat) => writeCell d r c 1) d).running = true ∧
      (l.foldl (fun d (c : Nat) => writeCell d r c 1) d).grid =
        l.foldl (fun g c => setCell g r c 1) d.grid := by
  induction l with
  | nil => intro _ d h; exact ⟨h, rfl⟩
  | cons c l ih =>
    intro hl d h
    have hc := hl c (List.mem_cons_self c l)
    have := ih (fun c' hc' => hl c' (List.mem_cons_of_mem c hc')) (writeCell d r c 1)
      (writeCell_running d r c 1 h)
    rw [writeCell_grid d r c 1 h hr hc] at this
    exact this

theorem foldl_writeCell_rows (l : List Nat) :
    (∀ r, r ∈ l → r < SCREEN_H) → ∀ d : DrawState, d.running = true →
      (l.foldl (fun d (r : Nat) =>
        (List.range SCREEN_W).foldl (fun d (c : Nat) => writeCell d r c 1) d) d).running = true ∧
      (l.foldl (fun d (r : Nat) =>
        (List.range SCREEN_W).foldl (fun d (c : Nat) => writeCell d r c 1) d) d).grid =
        l.foldl (fun g r => (List.range SCREEN_W).foldl (fun g c => setCell g r c 1) g)
          d.grid := by
  induction l with
  | nil => intro _ d h; exact ⟨h, rfl⟩
  | cons r l ih =>
    intro hl d h
    have hr := hl r (List.mem_cons_self r l)
    obtain ⟨h1, h2⟩ := foldl_writeCell_row r hr (List.range SCREEN_W)
      (fun c hc => List.mem_range.1 hc) d h
    have := ih (fun r' hr' => hl r' (List.mem_cons_of_mem r hr')) _ h1
    rw [h2] at this
    exact this

/-- The clear of `drawGame` completes and leaves what the clear of `setupVGA`
leaves: 1 in every cell. -/
theorem drawClear_grid (g : Grid) :
    (drawClear ⟨g, [], true⟩).running = true ∧
    ∀ i j, (drawClear ⟨g, [], true⟩).grid i j = 1 := by
  obtain ⟨h1, h2⟩ := foldl_writeCell_rows (List.range SCREEN_H)
    (fun r hr => List.mem_range.1 hr) ⟨g, [], true⟩ rfl
  refine ⟨h1, fun i j => ?_⟩
  rw [drawClear, h2]
  exact clearGrid_cell g i j

/-! ## `drawGame`: the loops that exit -/

theorem forInt_lt_running (hi : Int) (body : Int → DrawState → DrawState)
    (hbody : ∀ i d, d.running = true → (body i d).running = true) (hhi : hi ≤ 32767) :
    ∀ (fuel : Nat) (i : Int) (d : DrawState), d.running = true → -32768 ≤ i →
      (hi - i).toNat ≤ fuel →
      (forInt (fun c => decide (c < hi)) body fuel i d).running = true := by
  intro fuel
  induction fuel with
  | zero =>
    intro i d hd _ hm
    rw [forInt, if_neg]
    · exact hd
    · simp only [Bool.and_eq_true, decide_eq_true_eq, not_and]
      intro _
      omega
  | succ fuel ih =>
    intro i d hd hi0 hm
    rw [forInt]
    split
    · rename_i hc
      simp only [Bool.and_eq_true, decide_eq_true_eq] at hc
      rw [wrapInt16_of_range _ (by omega) (by omega)]
      exact ih _ _ (hbody i d hd) (by omega) (by omega)
    · exact hd

theorem forInt_le_running (hi : Int) (body : Int → DrawState → DrawState)
    (hbody : ∀ i d, d.running = true → (body i d).running = true) (hhi : hi < 32767) :
    ∀ (fuel : Nat) (i : Int) (d : DrawState), d.running = true → -32768 ≤ i →
      (hi + 1 - i).toNat ≤ fuel →
      (forInt (fun c => decide (c ≤ hi)) body fuel i d).running = true := by
  intro fuel
  induction fuel with
  | zero =>
    intro i d hd _ hm
    rw [forInt, if_neg]
    · exact hd
    · simp only [Bool.and_eq_true, decide_eq_true_eq, not_and]
      intro _
      omega
  | succ fuel ih =>
    intro i d hd hi0 hm
    rw [forInt]
    split
    · rename_i hc
      simp only [Bool.and_eq_true, decide_eq_true_eq] at hc
      rw [wrapInt16_of_range _ (by omega) (by omega)]
      exact ih _ _ (hbody i d hd) (by omega) (by omega)
    · exact hd

/-- A loop whose condition holds for every 16-bit counter value never exits:
execution stops inside it whatever the budget. -/
theorem forInt_never_exits (cond : Int → Bool) (body : Int → DrawState → DrawState)
    (hcond : ∀ i, i ≤ 32767 → cond i = true) :
    ∀ (fuel : Nat) (i : Int) (d : DrawState), i ≤ 32767 →
      (forInt cond body fuel i d).running = false := by
  intro fuel
  induction fuel with
  | zero =>
    intro i d hi
    rw [forInt]
    split
    · rfl
    · rename_i hc
      simp only [Bool.and_eq_true, hcond i hi, and_true, Bool.not_eq_true] at hc
      exact hc
  | succ fuel ih =>
    intro i d hi
    rw [forInt]
    split
    · exact ih _ _ (by unfold wrapInt16; omega)
    · rename_i hc
      simp only [Bool.and_eq_true, hcond i hi, and_true, Bool.not_eq_true] at hc
      exact hc

theorem guarded_write_running (g : Prop) [Decidable g] (d : DrawState) (r c : Int) (v : Nat)
    (h : d.running = true) : (if g then writeCell d r c v else d).running = true := by
  split
  · exact writeCell_running d r c v h
  · exact h

theorem drawBird_running (fuel : Nat) (hf : 3 ≤ fuel) (birdY : Int)
    (h1 : -32768 ≤ birdY) (h2 : birdY ≤ 32767) (h3 : birdY ≠ 32766)
    (d : DrawState) (h : d.running = true) : (drawBird fuel birdY d).running = true := by
  refine forInt_le_running _ _ ?_ (by unfold wrapInt16; omega) fuel _ d h
    (by unfold wrapInt16; omega) (by unfold wrapInt16; omega)
  intro r d hd
  refine forInt_lt_running _ _ ?_ (by decide) fuel _ d hd (by decide) ?_
  · intro c d hd
    exact guarded_write_running _ d r c 0 hd
  · have : (wrapInt16 (BIRD_X + 2) - BIRD_X).toNat = 2 := by decide
    omega

theorem drawPipe_running (fuel : Nat) (hf : 2 ≤ fuel) (p : Pipe)
    (h1 : -32768 ≤ p.x) (h2 : p.x ≤ 32767)
    (d : DrawState) (h : d.running = true) : (drawPipe fuel p d).running = true := by
  rw [drawPipe]
  split
  · exact h
  · refine foldl_inv (fun d => d.running = true) _ _ d h (fun d r _ hd => ?_)
    split
    · exact hd
    · refine forInt_lt_running _ _ ?_ (by unfold wrapInt16; omega) fuel _ d hd h1
        (by unfold wrapInt16; omega)
      intro c d hd
      exact guarded_write_running _ d r c 0 hd

theorem drawScore_running (fuel : Nat) (hf : 37 ≤ fuel) (score : Int)
    (d : DrawState) (h : d.running = true) : (drawScore fuel score d).running = true := by
  have hsc : Int.tmod score ((SCREEN_W - 2 : Nat) : Int) < 38 :=
    Int.tmod_lt_of_pos score (by decide)
  exact forInt_lt_running _ _ (fun c d hd => writeCell_running d 0 c 0 hd) (by omega)
    fuel 0 d h (by decide) (by omega)

theorem drawGround_running (d : DrawState) (h : d.running = true) :
    (drawGround d).running = true := by
  refine foldl_inv (fun d => d.running = true) _ _ d h (fun d c _ hd => ?_)
  exact writeCell_running d _ _ 0 hd

theorem drawGameOver_running (st : GameState) (d : DrawState) (h : d.running = true) :
    (drawGameOver st d).running = true := by
  rw [drawGameOver]
  split
  · split
    · refine foldl_inv (fun d => d.running = true) _ _ d h (fun d r _ hd => ?_)
      refine foldl_inv (fun d => d.running = true) _ _ d hd (fun d c _ hd => ?_)
      exact writeCell_running d _ _ 0 hd
    · exact h
  · exact h

/-- With a budget of 37 iterations per loop `drawGame` runs to its end from
every game state of 16-bit values except `birdY = 32766`. -/
theorem drawGame_returns (fuel : Nat) (hf : 37 ≤ fuel) (st : GameState) (g : Grid)
    (hwf : st.wellFormed) (hb : st.birdY ≠ 32766) :
    (drawGame fuel st g).2.running = true := by
  have h1 := (drawClear_grid g).1
  have h2 := drawBird_running fuel (by omega) st.birdY hwf.1.1 hwf.1.2 hb _ h1
  have h3 : (drawPipes fuel st.pipes (drawBird fuel st.birdY (drawClear ⟨g, [], true⟩))).running
      = true :=
    foldl_inv (fun d => d.running = true) _ _ _ h2
      (fun d i _ hd => drawPipe_running fuel (by omega) (st.pipes i) (hwf.2 i).1 (hwf.2 i).2 d hd)
  exact drawGameOver_running st _ (drawScore_running fuel hf st.score _ (drawGround_running _ h3))

/-- With `birdY = 32766` the bound `by + 1` of the bird loop is the largest
`int`, the loop condition `r <= by + 1` never fails, and `drawGame` does not
return, whatever the budget. -/
theorem drawGame_bird_loop (fuel : Nat) (st : GameState) (g : Grid)
    (hb : st.birdY = 32766) : (drawGame fuel st g).2.running = false := by
  have h2 : (drawBird fuel st.birdY (drawClear ⟨g, [], true⟩)).running = false := by
    rw [drawBird, hb]
    refine forInt_never_exits _ _ ?_ fuel _ _ (by decide)
    intro i hi
    have : wrapInt16 (32766 + 1) = 32767 := by decide
    rw [this]
    exact decide_eq_true hi
  exact drawGameOver_kept _ stopped_kept st _
    (drawScore_kept _ stopped_kept fuel st.score _
      (drawGround_kept _ stopped_kept _
        (drawPipes_kept _ stopped_kept fuel st.pipes _ h2)))

/-! ## `drawGame`: the clear alone makes 1200 assignments -/

theorem writeCell_length (d : DrawState) (r c : Int) (v : Nat) (h : d.running = true) :
    (writeCell d r c v).writes.length = d.writes.length + 1 := by
  rw [writeCell, if_pos h]
  simp

theorem foldl_writeCell_row_length (r : Nat) (l : List Nat) :
    ∀ d : DrawState, d.running = true →
      (l.foldl (fun d (c : Nat) => writeCell d r c 1) d).running = true ∧
      (l.foldl (fun d (c : Nat) => writeCell d r c 1) d).writes.length =
        d.writes.length + l.length := by
  induction l with
  | nil => intro d h; exact ⟨h, rfl⟩
  | cons c l ih =>
    intro d h
    obtain ⟨h1, h2⟩ := ih (writeCell d r c 1) (writeCell_running d r c 1 h)
    refine ⟨h1, ?_⟩
    rw [List.foldl_cons, h2, writeCell_length d r c 1 h, List.length_cons]
    omega

theorem foldl_writeCell_rows_length (l : List Nat) :
    ∀ d : DrawState, d.running = true →
      (l.foldl (fun d (r : Nat) =>
        (List.range SCREEN_W).foldl (fun d (c : Nat) => writeCell d r c 1) d) d).writes.length =
        d.writes.length + 40 * l.length := by
  induction l with
  | nil => intro d _; rfl
  | cons r l ih =>
    intro d h
    obtain ⟨h1, h2⟩ := foldl_writeCell_row_length r (List.range SCREEN_W) d h
    rw [List.foldl_cons, ih _ h1, h2, List.length_range, List.length_cons]
    simp only [SCREEN_W]
    omega

theorem drawClear_length (g : Grid) : (drawClear ⟨g, [], true⟩).writes.length = 1200 := by
  rw [drawClear, foldl_writeCell_rows_length _ _ rfl, List.length_range]
  rfl

theorem length_kept (n : Nat) : Kept (fun d => n ≤ d.writes.length) := by
  constructor
  · intro d r c v _ _ _ _ _ hd
    rw [writeCell]
    split
    · simp only [List.length_append, List.length_singleton]
      omega
    · exact hd
  · intro d hd
    exact hd

/-! # The claims -/

/-! ## C1 -/

set_option maxRecDepth 20000 in
/-- C1 (as stated, refuted): from the state set up by `setupVGA`, 35
horizontal-line events followed by one vertical-sync event reach a state in
which the line handler is entered with `PXL_OUT = 1` while `lineCounter` is 0,
outside the range `35 ≤ lineCounter < 515`; the row read there is row -3,
outside the pixel buffer. -/
theorem C1_counterexample :
    (runVGA (setupVGA ⟨fun _ _ => 0, 0, 0, 0⟩)
        (List.replicate 35 VGAEvent.hline ++ [VGAEvent.vsync])).PXL_OUT = 1 ∧
    (runVGA (setupVGA ⟨fun _ _ => 0, 0, 0, 0⟩)
        (List.replicate 35 VGAEvent.hline ++ [VGAEvent.vsync])).lineCounter = 0 ∧
    rowIndex 0 = -3 ∧
    portWrites (runVGA (setupVGA ⟨fun _ _ => 0, 0, 0, 0⟩)
        (List.replicate 35 VGAEvent.hline ++ [VGAEvent.vsync])) = none := by
  refine ⟨by decide, by decide, by decide, by decide⟩

/-- C1 (amended): in every state reachable from the state set up by `setupVGA`
through vertical-sync and horizontal-line events in which each vertical sync
fires outside the active-display range, the line handler is entered with
`PXL_OUT = 1` only while `35 ≤ lineCounter < 515`. -/
theorem C1_emit_only_in_active_range (s0 : VGAState) (es : List VGAEvent)
    (hb : vsyncInBlanking (setupVGA s0) es = true)
    (hout : (runVGA (setupVGA s0) es).PXL_OUT = 1) :
    35 ≤ (runVGA (setupVGA s0) es).lineCounter ∧
      (runVGA (setupVGA s0) es).lineCounter < 515 :=
  inv_of_vsyncInBlanking es (setupVGA s0) (fun h => absurd h (by simp [setupVGA])) hb hout

set_option maxRecDepth 20000 in
/-- C1, witness: a vertical sync on line 1 (outside the active range)
followed by 36 lines enables the output on line 36. -/
theorem C1_emit_only_in_active_range_witness :
    (runVGA (setupVGA ⟨fun _ _ => 0, 7, 1, 1⟩)
      (VGAEvent.hline :: VGAEvent.vsync :: List.replicate 36 VGAEvent.hline)).PXL_OUT = 1 ∧
    35 ≤ (runVGA (setupVGA ⟨fun _ _ => 0, 7, 1, 1⟩)
      (VGAEvent.hline :: VGAEvent.vsync :: List.replicate 36 VGAEvent.hline)).lineCounter ∧
    (runVGA (setupVGA ⟨fun _ _ => 0, 7, 1, 1⟩)
      (VGAEvent.hline :: VGAEvent.vsync :: List.replicate 36 VGAEvent.hline)).lineCounter < 515 :=
  ⟨by decide, C1_emit_only_in_active_range ⟨fun _ _ => 0, 7, 1, 1⟩ _ (by decide) (by decide)⟩

/-! ## C2 -/

/-- C2: at window close with a zero-crossing count `z` in 0..1024, the gate
`freq < 10000.0` fails exactly when `z * 125000 / 1024` exceeds 10000, in which
case `detectedFreqHz` becomes 0; otherwise `detectedFreqHz` becomes
`z * 125000 / 1024` truncated to an integer. -/
theorem C2_validity_gate (s : AudioState) (hz : s.zeroCrossings ≤ 1024)
    (hw : s.samplesInWindow ≥ SAMPLE_WINDOW) :
    ((windowFreq s.zeroCrossings).ltNat 10000 = false ↔
      10000 * 1024 < s.zeroCrossings * 125000) ∧
    (10000 * 1024 < s.zeroCrossings * 125000 → (windowClose s).detectedFreqHz = 0) ∧
    (s.zeroCrossings * 125000 ≤ 10000 * 1024 →
      (windowClose s).detectedFreqHz = s.zeroCrossings * 125000 / 1024) := by
  obtain ⟨hg, hp⟩ := publishedFreq_table s.zeroCrossings (by omega)
  rw [windowClose_detectedFreqHz s hw, hp, hg]
  refine ⟨?_, ?_, ?_⟩
  · rw [decide_eq_false_iff_not]
    omega
  · intro h
    rw [if_pos h]
  · intro h
    rw [if_neg (by omega)]

/-- C2, witness: a count of 82 computes to 10009 Hz and is forced to 0, a
count of 81 publishes 9887. -/
theorem C2_validity_gate_witness :
    (windowClose ⟨7, 0, 82, 0, 1024, 0⟩).detectedFreqHz = 0 ∧
    (windowClose ⟨7, 0, 81, 0, 1024, 0⟩).detectedFreqHz = 81 * 125000 / 1024 :=
  ⟨(C2_validity_gate ⟨7, 0, 82, 0, 1024, 0⟩ (by decide) (by decide)).2.1 (by decide),
   (C2_validity_gate ⟨7, 0, 81, 0, 1024, 0⟩ (by decide) (by decide)).2.2 (by decide)⟩

/-! ## C3 -/

/-- C3: for a window that starts in any window-start state and receives any
1024 samples, with `z` the zero-crossing count at window close: when the
computed frequency passes the gate `freq < 10000.0`, the value published by
the handler run that closes the window is `z * 125000 / 1024` truncated to an
integer; in particular a window with exactly 33 crossings publishes 4028. -/
theorem C3_published_frequency (s : AudioState) (x : Nat → Nat)
    (hs : s.samplesInWindow = 0) (hz : s.zeroCrossings = 0) :
    ((windowFreq (countAtClose s x)).ltNat 10000 = true →
      (runADC s (samples x SAMPLE_WINDOW)).detectedFreqHz =
        countAtClose s x * 125000 / 1024) ∧
    (countAtClose s x = 33 →
      (runADC s (samples x SAMPLE_WINDOW)).detectedFreqHz = 4028) := by
  have hle := countAtClose_le s x hs hz
  obtain ⟨hg, hp⟩ := publishedFreq_table (countAtClose s x) (by omega)
  rw [(runADC_window s x hs hz).1, hp]
  constructor
  · intro hgate
    rw [hg, decide_eq_true_iff] at hgate
    rw [if_neg (by omega)]
  · intro h33
    rw [h33]
    decide

/-- C3, witness: from the initial state, a two-level input of period 31
samples has exactly 33 positive-going crossings in the window and publishes
4028. -/
theorem C3_published_frequency_witness :
    countAtClose initAudio (squareWave 31 15 20) = 33 ∧
    (runADC initAudio (samples (squareWave 31 15 20) SAMPLE_WINDOW)).detectedFreqHz = 4028 :=
  have h33 : countAtClose initAudio (squareWave 31 15 20) = 33 := by
    rw [countAtClose_square initAudio (squareWave 31 15 20) 31 15 20 rfl rfl
      (by decide) (by decide) (by decide)
      (fun i _ hm => squareWave_pos 31 15 20 i hm)
      (fun i _ hm => squareWave_neg 31 15 20 i hm)]
    decide
  ⟨h33, (C3_published_frequency initAudio (squareWave 31 15 20) rfl rfl).2 h33⟩

/-! ## C4 -/

/-- C4 (as stated, refuted): `zeroCrossings` is a `uint16_t`; from a state
with `zeroCrossings = 65535` and `lastSample = 0` the sample 1023 (centered
511) is a positive-going crossing, and the count becomes 0, not 65536. -/
theorem C4_counterexample :
    (sampleStep ⟨0, 0, 65535, 0, 0, 0⟩ 1023).zeroCrossings = 0 ∧
    (sampleStep ⟨0, 0, 65535, 0, 0, 0⟩ 1023).zeroCrossings ≠ 65535 + 1 := by
  constructor <;> decide

/-- C4 (amended): for every raw value `v` in 0..1023 and every prior state
whose count is below the largest `uint16_t`, the counting part of the handler
computes `centered = v - 512` (between -512 and 511), increases
`zeroCrossings` by exactly 1 if `lastSample ≤ 0` and `centered > 0` and leaves
it unchanged otherwise, and sets `lastSample` to `centered`; a negative-going
transition does not change the count. -/
theorem C4_sample_step (s : AudioState) (v : Nat) (hv : v ≤ 1023)
    (hz : s.zeroCrossings < 65535) :
    centered v = (v : Int) - 512 ∧ -512 ≤ centered v ∧ centered v ≤ 511 ∧
    (sampleStep s v).zeroCrossings =
      (if s.lastSample ≤ 0 ∧ centered v > 0 then s.zeroCrossings + 1
       else s.zeroCrossings) ∧
    (sampleStep s v).lastSample = centered v ∧
    (0 < s.lastSample → centered v ≤ 0 →
      (sampleStep s v).zeroCrossings = s.zeroCrossings) := by
  have hc := centered_of_le v hv
  refine ⟨hc, by omega, by omega, ?_, rfl, ?_⟩
  · simp only [sampleStep]
    split
    · omega
    · rfl
  · intro h1 _
    simp only [sampleStep]
    rw [if_neg (by omega)]

/-- C4, witness: from the initial state the sample 600 is counted. -/
theorem C4_sample_step_witness :
    centered 600 = 88 ∧ (sampleStep initAudio 600).zeroCrossings = 1 ∧
    (sampleStep initAudio 600).lastSample = 88 :=
  ⟨by decide,
   by rw [(C4_sample_step initAudio 600 (by decide) (by decide)).2.2.2.1]; decide,
   by rw [(C4_sample_step initAudio 600 (by decide) (by decide)).2.2.2.2.1]; decide⟩

/-! ## C5 -/

/-- C5 (as stated, refuted): from the initial state (`lastSample = 0`), a
window whose 1024 samples are all 1023 (centered 511, strictly positive)
closes with a zero-crossing count of 1 and publishes 122, not 0. -/
theorem C5_counterexample :
    initAudio.samplesInWindow = 0 ∧ initAudio.zeroCrossings = 0 ∧
    (∀ i, i < 1024 → 0 < centered ((fun _ => 1023) i)) ∧
    countAtClose initAudio (fun _ => 1023) = 1 ∧
    (runADC initAudio (samples (fun _ => 1023) SAMPLE_WINDOW)).detectedFreqHz = 122 := by
  have hpos : ∀ i, i < 1024 → 0 < centered ((fun _ => 1023) i) :=
    fun _ _ => (by decide : 0 < centered 1023)
  have hc : countAtClose initAudio (fun _ => 1023) = 1 := by
    rw [countAtClose_eq initAudio (fun _ => 1023) rfl rfl]
    exact crossings_of_pos_first 0 (fun _ => 1023) 1023 (Int.le_refl 0) hpos
  refine ⟨rfl, rfl, hpos, hc, ?_⟩
  rw [(runADC_window initAudio (fun _ => 1023) rfl rfl).1, hc]
  decide

/-- C5 (amended): from any window-start state, if the 1024 samples of the
window are all zero after centering, or all strictly negative, or all
strictly positive with `lastSample` positive at the window start, then the
zero-crossing count at window close is 0 and the published `detectedFreqHz`
is 0. -/
theorem C5_flat_input (s : AudioState) (x : Nat → Nat)
    (hs : s.samplesInWindow = 0) (hz : s.zeroCrossings = 0)
    (hx : (∀ i, i < 1024 → x i = 512) ∨ (∀ i, i < 1024 → x i < 512) ∨
      (0 < s.lastSample ∧ ∀ i, i < 1024 → 512 < x i ∧ x i ≤ 1023)) :
    countAtClose s x = 0 ∧
    (runADC s (samples x SAMPLE_WINDOW)).detectedFreqHz = 0 := by
  have hc : countAtClose s x = 0 := by
    rw [countAtClose_eq s x hs hz]
    rcases hx with h0 | hneg | ⟨hl, hpos⟩
    · refine crossings_of_nonpos _ _ _ (fun i hi => ?_)
      rw [h0 i hi]
      decide
    · exact crossings_of_nonpos _ _ _ (fun i hi => le_of_lt (centered_neg_of _ (hneg i hi)))
    · exact crossings_of_pos _ _ _ hl (fun i hi => centered_pos_of _ (hpos i hi))
  refine ⟨hc, ?_⟩
  rw [(runADC_window s x hs hz).1, hc]
  decide

/-- C5, witness: a window of samples 700 that starts with `lastSample = 5`. -/
theorem C5_flat_input_witness :
    countAtClose ⟨440, 9, 0, 5, 0, 3⟩ (fun _ => 700) = 0 ∧
    (runADC ⟨440, 9, 0, 5, 0, 3⟩ (samples (fun _ => 700) SAMPLE_WINDOW)).detectedFreqHz = 0 :=
  C5_flat_input ⟨440, 9, 0, 5, 0, 3⟩ (fun _ => 700) rfl rfl
    (Or.inr (Or.inr ⟨by decide, fun _ _ => (by decide : 512 < 700 ∧ 700 ≤ 1023)⟩))

/-! ## C6 -/

/-- C6 (as stated, refuted): from the initial state (`lastSample = 0`), the
input of period 18 samples that is 9 samples high and 9 samples low, starting
3 samples into its high half, closes the window with 58 crossings, while
1024 / 18 is below 57. -/
theorem C6_counterexample :
    countAtClose initAudio (squareWave 18 9 3) = 58 ∧
    ¬ |((countAtClose initAudio (squareWave 18 9 3) : Nat) : ℚ) - 1024 / 18| ≤ 1 ∧
    ¬ (countAtClose initAudio (squareWave 18 9 3) - 1024 / 18 ≤ 1) := by
  have hc : countAtClose initAudio (squareWave 18 9 3) = 58 := by
    rw [countAtClose_square initAudio (squareWave 18 9 3) 18 9 3 rfl rfl
      (by decide) (by decide) (by decide)
      (fun i _ hm => squareWave_pos 18 9 3 i hm)
      (fun i _ hm => squareWave_neg 18 9 3 i hm)]
    decide
  refine ⟨hc, ?_, ?_⟩
  · rw [hc, abs_le]
    norm_num
  · rw [hc]
    decide

/-- C6 (amended): from any window-start state, if over the 1024 samples of
the window the input is positive on the first `h` and negative on the other
`p - h` phases of a period of `p` samples (any phase at the window start),
then the zero-crossing count `z` at window close satisfies
`-1 ≤ z - 1024 / p < 2`, and `|z - 1024 / p| ≤ 1` when `lastSample` at the
window start continues the input, that is, when it is positive or the input
is negative one sample before the window. -/
theorem C6_periodic_count (s : AudioState) (x : Nat → Nat) (p h φ : Nat)
    (hs : s.samplesInWindow = 0) (hz : s.zeroCrossings = 0)
    (hh0 : 0 < h) (hh1 : h < p) (hφ : φ < p)
    (hpos : ∀ i, i < 1024 → (i + φ) % p < h → 512 < x i ∧ x i ≤ 1023)
    (hneg : ∀ i, i < 1024 → h ≤ (i + φ) % p → x i < 512) :
    (-1 ≤ (countAtClose s x : ℚ) - 1024 / (p : ℚ) ∧
      (countAtClose s x : ℚ) - 1024 / (p : ℚ) < 2) ∧
    ((s.lastSample ≤ 0 → h ≤ (φ + (p - 1)) % p) →
      |(countAtClose s x : ℚ) - 1024 / (p : ℚ)| ≤ 1) := by
  have hp : 0 < p := by omega
  have hcount := countAtClose_square s x p h φ hs hz hh0 hh1 hφ hpos hneg
  have hdm := Nat.div_add_mod (1023 + φ) p
  have hml := Nat.mod_lt (1023 + φ) hp
  have hlow : 1024 ≤ p * countAtClose s x + p := by
    rw [hcount, Nat.mul_add]
    split <;> omega
  have hup2 : p * countAtClose s x < 1024 + 2 * p := by
    rw [hcount, Nat.mul_add]
    split <;> omega
  have hp' : (0 : ℚ) < p := by exact_mod_cast hp
  have h1' : (1024 : ℚ) ≤ p * countAtClose s x + p := by exact_mod_cast hlow
  have h2' : (p : ℚ) * countAtClose s x < 1024 + 2 * p := by exact_mod_cast hup2
  have key : (countAtClose s x : ℚ) - 1024 / (p : ℚ) =
      ((p : ℚ) * countAtClose s x - 1024) / p := by
    field_simp
    ring
  refine ⟨⟨?_, ?_⟩, ?_⟩
  · rw [key, le_div_iff₀ hp']
    linarith
  · rw [key, div_lt_iff₀ hp']
    linarith
  · intro hlast
    refine abs_sub_div_le _ _ hp hlow ?_
    rw [hcount, Nat.mul_add]
    by_cases hc : s.lastSample ≤ 0 ∧ φ < h
    · have hprev := hlast hc.1
      have hφ0 : φ = 0 := by
        by_contra hne
        have e : φ + (p - 1) = (φ - 1) + p := by omega
        rw [e, Nat.add_mod_right, Nat.mod_eq_of_lt (by omega)] at hprev
        omega
      subst hφ0
      rw [if_pos hc]
      simp only [Nat.add_zero] at hdm hml ⊢
      omega
    · rw [if_neg hc]
      omega

/-- C6, witness: the input of period 18 of the refutation, in a window that
starts with `lastSample` positive, closes with a count within 1 of 1024 / 18. -/
theorem C6_periodic_count_witness :
    |((countAtClose ⟨0, 0, 0, 511, 0, 0⟩ (squareWave 18 9 3) : Nat) : ℚ) - 1024 / ((18 : Nat) : ℚ)|
      ≤ 1 :=
  (C6_periodic_count ⟨0, 0, 0, 511, 0, 0⟩ (squareWave 18 9 3) 18 9 3 rfl rfl
    (by decide) (by decide) (by decide)
    (fun i _ hm => squareWave_pos 18 9 3 i hm)
    (fun i _ hm => squareWave_neg 18 9 3 i hm)).2
    (fun hl => absurd hl (by decide))

/-! ## C7 -/

/-- C7: for every sequence of samples from the initial state, between handler
runs `samplesInWindow` is below 1024 and `zeroCrossings` is at most 1024;
inside the next run neither exceeds 1024 before the reset, and the run in
which `samplesInWindow` reaches 1024 leaves both at exactly 0. -/
theorem C7_window_counters (vals : List Nat) (v : Nat) :
    (runADC initAudio vals).samplesInWindow < 1024 ∧
    (runADC initAudio vals).zeroCrossings ≤ 1024 ∧
    (sampleStep (runADC initAudio vals) v).samplesInWindow ≤ 1024 ∧
    (sampleStep (runADC initAudio vals) v).zeroCrossings ≤ 1024 ∧
    ((sampleStep (runADC initAudio vals) v).samplesInWindow = 1024 →
      (ADC_vect (runADC initAudio vals) v).samplesInWindow = 0 ∧
      (ADC_vect (runADC initAudio vals) v).zeroCrossings = 0) := by
  have hinv := runADC_inv vals initAudio ⟨Nat.le_refl _, by decide⟩
  obtain ⟨h1, h2, _, _⟩ := ADC_vect_inv (runADC initAudio vals) v hinv
  have h3 : (runADC initAudio vals).samplesInWindow < 1024 := hinv.2
  refine ⟨h3, by omega, by omega, by omega, ?_⟩
  intro h
  have hc : (sampleStep (runADC initAudio vals) v).samplesInWindow ≥ SAMPLE_WINDOW := by
    rw [h]
    exact Nat.le_refl _
  rw [ADC_vect, windowClose, if_pos hc]
  exact ⟨rfl, rfl⟩

/-- C7, witness: the 1024th sample from the initial state closes the window
and leaves both counters at 0. -/
theorem C7_window_counters_witness :
    (ADC_vect (runADC initAudio (samples (fun _ => 600) 1023)) 600).samplesInWindow = 0 ∧
    (ADC_vect (runADC initAudio (samples (fun _ => 600) 1023)) 600).zeroCrossings = 0 :=
  (C7_window_counters (samples (fun _ => 600) 1023) 600).2.2.2.2
    (sampleStep_openWindow initAudio (fun _ => 600) rfl rfl 1023 (by decide)).1

/-! ## C8 -/

/-- C8 (as stated, refuted): `lineCounter` is a 16-bit `int`; from the line
state with `lineCounter = 32767` the horizontal-line event leaves -32768 in
it, not the old value plus 1. -/
theorem C8_counterexample :
    (TIMER2_COMPB_vect ⟨fun _ _ => 1, 32767, 0, 0⟩).lineCounter = -32768 ∧
    (TIMER2_COMPB_vect ⟨fun _ _ => 1, 32767, 0, 0⟩).lineCounter ≠ 32767 + 1 := by
  constructor <;> decide

/-- C8 (amended): for every prior line state whose `lineCounter` is below the
largest 16-bit `int`, one horizontal-line event sets `lineCounter` to its old
value plus 1, flips `skipLine` (1 if it was 0, else 0), and sets `PXL_OUT` to 1
if and only if the new `skipLine` is set and the new `lineCounter` satisfies
`35 ≤ lineCounter < 515`, otherwise to 0. -/
theorem C8_hline_step (s : VGAState)
    (hlo : -32768 ≤ s.lineCounter) (hhi : s.lineCounter < 32767) :
    (TIMER2_COMPB_vect s).lineCounter = s.lineCounter + 1 ∧
    (TIMER2_COMPB_vect s).skipLine = (if s.skipLine = 0 then 1 else 0) ∧
    ((TIMER2_COMPB_vect s).PXL_OUT = 1 ↔
      ((TIMER2_COMPB_vect s).skipLine ≠ 0 ∧ 35 ≤ (TIMER2_COMPB_vect s).lineCounter ∧
        (TIMER2_COMPB_vect s).lineCounter < 515)) ∧
    ((TIMER2_COMPB_vect s).PXL_OUT ≠ 1 → (TIMER2_COMPB_vect s).PXL_OUT = 0) := by
  have hw : wrapInt16 (s.lineCounter + 1) = s.lineCounter + 1 :=
    wrapInt16_of_range _ (by omega) (by omega)
  refine ⟨hw, rfl, ?_, ?_⟩
  · simp only [TIMER2_COMPB_vect]
    constructor
    · intro h
      by_contra hc
      rw [if_neg hc] at h
      exact absurd h (by decide)
    · intro h
      rw [if_pos h]
  · simp only [TIMER2_COMPB_vect]
    intro h
    by_cases hc : (if s.skipLine = 0 then 1 else 0) ≠ 0 ∧
        35 ≤ wrapInt16 (s.lineCounter + 1) ∧ wrapInt16 (s.lineCounter + 1) < 515
    · rw [if_pos hc] at h
      exact absurd rfl h
    · rw [if_neg hc]

/-- C8, witness: the event that takes line 34 to line 35 with the flag
turning on enables the output. -/
theorem C8_hline_step_witness :
    (TIMER2_COMPB_vect ⟨fun _ _ => 1, 34, 0, 0⟩).lineCounter = 34 + 1 ∧
    (TIMER2_COMPB_vect ⟨fun _ _ => 1, 34, 0, 0⟩).skipLine = 1 ∧
    (TIMER2_COMPB_vect ⟨fun _ _ => 1, 34, 0, 0⟩).PXL_OUT = 1 :=
  ⟨(C8_hline_step ⟨fun _ _ => 1, 34, 0, 0⟩ (by decide) (by decide)).1,
   (C8_hline_step ⟨fun _ _ => 1, 34, 0, 0⟩ (by decide) (by decide)).2.1,
   by decide⟩

/-! ## C9 -/

/-- C9: for line indices `a ≤ b` of the active-display range 35..514, the row
the dispatcher reads is `(lineCounter - 35) >> 4` (no 16-bit wrap occurs),
and the mapping is monotonic non-decreasing. -/
theorem C9_row_mapping (a b : Int) (ha : 35 ≤ a) (hab : a ≤ b) (hb : b < 515) :
    rowIndex a = (a - 35) >>> (4 : Nat) ∧ rowIndex b = (b - 35) >>> (4 : Nat) ∧
      rowIndex a ≤ rowIndex b := by
  have e1 := rowIndex_eq_div a (by omega) (by omega)
  have e2 := rowIndex_eq_div b (by omega) (by omega)
  refine ⟨?_, ?_, ?_⟩
  · rw [e1, Int.shiftRight_eq_div_pow]; norm_num
  · rw [e2, Int.shiftRight_eq_div_pow]; norm_num
  · rw [e1, e2]; omega

/-- C9, witness: lines 50 and 51 map to rows 0 and 1. -/
theorem C9_row_mapping_witness :
    rowIndex 50 = 0 ∧ rowIndex 51 = 1 ∧ rowIndex 50 ≤ rowIndex 51 :=
  ⟨by decide, by decide, (C9_row_mapping 50 51 (by decide) (by decide) (by decide)).2.2⟩

/-! ## C10 -/

/-- C10: when the line handler runs with `PXL_OUT = 1` and `lineCounter` L in
35..514, the pixel writes are exactly the `SCREEN_W = 40` values
`cell << 2` (on the 8-bit port) of the cells of row `(L - 35) >> 4`, left to
right, the grid is not modified, and for an all-background grid all 40 writes
are the background level `1 << 2` and none is the active level 0. For a cell
that holds 0 or 1 the value written is `4 * cell`. -/
theorem C10_line_emission (s : VGAState) (hout : s.PXL_OUT = 1)
    (h1 : 35 ≤ s.lineCounter) (h2 : s.lineCounter < 515) :
    ∃ r : Fin SCREEN_H, (r.val : Int) = (s.lineCounter - 35) >>> (4 : Nat) ∧
      pixelOutputs s =
        some (List.ofFn (fun c : Fin SCREEN_W => (s.PXL_DATA r c <<< PD2) % 256)) ∧
      portWrites s =
        some (List.ofFn (fun c : Fin SCREEN_W => (s.PXL_DATA r c <<< PD2) % 256) ++ [0]) ∧
      (List.ofFn (fun c : Fin SCREEN_W => (s.PXL_DATA r c <<< PD2) % 256)).length = 40 ∧
      (TIMER2_COMPB_vect s).PXL_DATA = s.PXL_DATA ∧
      (∀ c, s.PXL_DATA r c ≤ 1 → (s.PXL_DATA r c <<< PD2) % 256 = 4 * s.PXL_DATA r c) ∧
      ((∀ i j, s.PXL_DATA i j = 1) →
        pixelOutputs s = some (List.replicate 40 (1 <<< PD2)) ∧
        (0 : Nat) ∉ List.replicate 40 (1 <<< PD2)) := by
  obtain ⟨hr0, hr1⟩ := rowIndex_lt s.lineCounter h1 h2
  have hsh : rowIndex s.lineCounter = (s.lineCounter - 35) >>> (4 : Nat) :=
    rowIndex_eq_shift s.lineCounter h1 h2
  obtain ⟨r, hrow⟩ : ∃ r : Fin SCREEN_H, rowIndex s.lineCounter = (r.val : Int) :=
    ⟨⟨(rowIndex s.lineCounter).toNat, by omega⟩, by
      show rowIndex s.lineCounter = ((rowIndex s.lineCounter).toNat : Int)
      omega⟩
  have hpix := pixelOutputs_row s r hrow
  refine ⟨r, ?_, hpix, ?_, ?_, rfl, ?_, ?_⟩
  · rw [← hsh, hrow]
  · rw [portWrites, if_pos hout, hpix, Option.map_some']
  · rw [List.length_ofFn]
  · intro c hc
    rw [Nat.shiftLeft_eq]
    have : s.PXL_DATA r c * 2 ^ PD2 = 4 * s.PXL_DATA r c := by
      rw [Nat.mul_comm]
      rfl
    rw [this]
    omega
  · intro hall
    constructor
    · rw [hpix]
      simp only [hall]
      rw [List.ofFn_const]
      rfl
    · intro hmem
      exact absurd (List.eq_of_mem_replicate hmem) (by decide)

/-- C10, witness: on line 35 of an all-background grid with the output
enabled, the 40 pixel writes are all 4. -/
theorem C10_line_emission_witness :
    pixelOutputs ⟨fun _ _ => 1, 35, 1, 1⟩ = some (List.replicate 40 (1 <<< PD2)) := by
  obtain ⟨_, _, _, _, _, _, _, h⟩ :=
    C10_line_emission ⟨fun _ _ => 1, 35, 1, 1⟩ rfl (by decide) (by decide)
  exact (h (fun _ _ => rfl)).1

/-! ## C11 -/

/-- C11 (as stated, refuted): on line 35 of an all-background grid the 40
pixel writes are the background level 4 (`1 << 2`) and the final write is 0,
which is not the background level. -/
theorem C11_counterexample :
    portWrites ⟨fun _ _ => 1, 35, 1, 1⟩ = some (List.replicate 40 4 ++ [0]) ∧
    (List.replicate 40 4 ++ [0]).getLast? = some 0 ∧
    (0 : Nat) ≠ (1 <<< PD2) % 256 := by
  refine ⟨?_, by decide, by decide⟩
  have hrow : rowIndex (35 : Int) = (((0 : Fin SCREEN_H)).val : Int) := by decide
  rw [portWrites, if_pos rfl, pixelOutputs_row ⟨fun _ _ => 1, 35, 1, 1⟩ 0 hrow,
    Option.map_some']
  show some (List.ofFn (fun _ : Fin SCREEN_W => (1 <<< PD2) % 256) ++ [0]) = _
  rw [List.ofFn_const]
  rfl

/-- C11 (amended): when the line handler emits a row (`PXL_OUT = 1`,
`lineCounter` in 35..514), its final port write, after the last cell, is 0:
the level written for an active cell (value 0), not the level 4 written for a
background cell (value 1). -/
theorem C11_final_write (s : VGAState) (hout : s.PXL_OUT = 1)
    (h1 : 35 ≤ s.lineCounter) (h2 : s.lineCounter < 515) :
    ∃ ws, portWrites s = some ws ∧ ws.length = 41 ∧ ws.getLast? = some 0 ∧
      (0 <<< PD2) % 256 = 0 ∧ (1 <<< PD2) % 256 = 4 := by
  obtain ⟨hr0, hr1⟩ := rowIndex_lt s.lineCounter h1 h2
  obtain ⟨r, hrow⟩ : ∃ r : Fin SCREEN_H, rowIndex s.lineCounter = (r.val : Int) :=
    ⟨⟨(rowIndex s.lineCounter).toNat, by omega⟩, by
      show rowIndex s.lineCounter = ((rowIndex s.lineCounter).toNat : Int)
      omega⟩
  refine ⟨_, by rw [portWrites, if_pos hout, pixelOutputs_row s r hrow, Option.map_some'],
    ?_, ?_, by decide, by decide⟩
  · rw [List.length_append, List.length_ofFn]
    rfl
  · rw [List.getLast?_append]
    rfl

/-- C11, witness: line 100 of a grid of active cells. -/
theorem C11_final_write_witness :
    ∃ ws, portWrites ⟨fun _ _ => 0, 100, 1, 1⟩ = some ws ∧ ws.getLast? = some 0 := by
  obtain ⟨ws, h1, _, h2, _⟩ :=
    C11_final_write ⟨fun _ _ => 0, 100, 1, 1⟩ rfl (by decide) (by decide)
  exact ⟨ws, h1, h2⟩

/-! ## C12 -/

/-- C12 (as stated, refuted): the three lines 35, 36 and 37 of the active
range all map to row 0, and from the state set up by `setupVGA` the output is
enabled on two of them, line 35 and line 37. -/
theorem C12_counterexample :
    rowIndex 35 = 0 ∧ rowIndex 36 = 0 ∧ rowIndex 37 = 0 ∧
    (runVGA (setupVGA ⟨fun _ _ => 0, 0, 0, 0⟩)
      (List.replicate 35 VGAEvent.hline)).PXL_OUT = 1 ∧
    (runVGA (setupVGA ⟨fun _ _ => 0, 0, 0, 0⟩)
      (List.replicate 37 VGAEvent.hline)).PXL_OUT = 1 := by
  refine ⟨by decide, by decide, by decide, ?_, ?_⟩
  · rw [(runVGA_hlines _ 35 (by decide)).2.2]
    decide
  · rw [(runVGA_hlines _ 37 (by decide)).2.2]
    decide

/-- C12 (amended): within the active-display range 35..514 each row 0..29 is
the row index of exactly 16 line indices, and, running horizontal-line events
from the state set up by `setupVGA` with no vertical sync, the output is
enabled on exactly 8 of them (the odd ones). -/
theorem C12_lines_per_row (s0 : VGAState) (r : Nat) (hr : r < 30) :
    (Finset.filter (fun n : Nat => 35 ≤ n ∧ rowIndex (n : Int) = (r : Int))
      (Finset.range 515)).card = 16 ∧
    (Finset.filter (fun n : Nat => 35 ≤ n ∧ rowIndex (n : Int) = (r : Int) ∧
        (runVGA (setupVGA s0) (List.replicate n VGAEvent.hline)).PXL_OUT = 1)
      (Finset.range 515)).card = 8 := by
  constructor
  · have hset : Finset.filter (fun n : Nat => 35 ≤ n ∧ rowIndex (n : Int) = (r : Int))
        (Finset.range 515) = Finset.Ico (35 + 16 * r) (51 + 16 * r) := by
      ext n
      simp only [Finset.mem_filter, Finset.mem_range, Finset.mem_Ico]
      constructor
      · rintro ⟨h1, h2, h3⟩
        rw [rowIndex_eq_div _ (by omega) (by omega)] at h3
        omega
      · rintro ⟨h1, h2⟩
        refine ⟨by omega, by omega, ?_⟩
        rw [rowIndex_eq_div _ (by omega) (by omega)]
        omega
    rw [hset, Nat.card_Ico]
    omega
  · have hset : Finset.filter (fun n : Nat => 35 ≤ n ∧ rowIndex (n : Int) = (r : Int) ∧
          (runVGA (setupVGA s0) (List.replicate n VGAEvent.hline)).PXL_OUT = 1)
        (Finset.range 515) = (Finset.range 8).image (fun k => 35 + 16 * r + 2 * k) := by
      ext n
      simp only [Finset.mem_filter, Finset.mem_range, Finset.mem_image]
      constructor
      · rintro ⟨h1, h2, h3, h4⟩
        rw [rowIndex_eq_div _ (by omega) (by omega)] at h3
        rw [(runVGA_hlines s0 n (by omega)).2.2] at h4
        have hodd : n % 2 = 1 := by
          by_contra hne
          rw [if_neg (fun hh => hne hh.1)] at h4
          exact absurd h4 (by decide)
        exact ⟨(n - 35 - 16 * r) / 2, by omega, by omega⟩
      · rintro ⟨k, hk, rfl⟩
        refine ⟨by omega, by omega, ?_, ?_⟩
        · rw [rowIndex_eq_div _ (by omega) (by omega)]
          omega
        · rw [(runVGA_hlines s0 _ (by omega)).2.2, if_pos ⟨by omega, by omega, by omega⟩]
    rw [hset, Finset.card_image_of_injective _ (fun a b hab => by
      have h : 35 + 16 * r + 2 * a = 35 + 16 * r + 2 * b := hab
      omega), Finset.card_range]

/-- C12, witness: row 29, the last row. -/
theorem C12_lines_per_row_witness :
    (Finset.filter (fun n : Nat => 35 ≤ n ∧ rowIndex (n : Int) = ((29 : Nat) : Int))
      (Finset.range 515)).card = 16 :=
  (C12_lines_per_row ⟨fun _ _ => 0, 0, 0, 0⟩ 29 (by decide)).1

/-! ## C13 -/

/-- C13: for every prior state the vertical-sync handler sets `lineCounter` to
0, leaves `skipLine`, `PXL_OUT` and the pixel grid unchanged, and applying it
twice gives the same state as applying it once. -/
theorem C13_vsync_reset (s : VGAState) :
    (TIMER1_OVF_vect s).lineCounter = 0 ∧
    (TIMER1_OVF_vect s).skipLine = s.skipLine ∧
    (TIMER1_OVF_vect s).PXL_OUT = s.PXL_OUT ∧
    (TIMER1_OVF_vect s).PXL_DATA = s.PXL_DATA ∧
    TIMER1_OVF_vect (TIMER1_OVF_vect s) = TIMER1_OVF_vect s :=
  ⟨rfl, rfl, rfl, rfl, rfl⟩

/-! ## C14 -/

/-- C14: a handler run entered with `samplesInWindow + 1 < 1024` leaves
`detectedFreqHz` unchanged; from the initial state `detectedFreqHz` is 0 while
fewer than 1024 samples have arrived, and after `1024 * (k + 1) + j` samples
(`j < 1024`) it is the estimate of window `k`, the most recently completed
one. -/
theorem C14_published_estimate (x : Nat → Nat) :
    (∀ (s : AudioState) (v : Nat), s.samplesInWindow + 1 < 1024 →
      (ADC_vect s v).detectedFreqHz = s.detectedFreqHz) ∧
    (∀ n : Nat, n < 1024 → (runADC initAudio (samples x n)).detectedFreqHz = 0) ∧
    (∀ k j : Nat, j < 1024 →
      (runADC initAudio (samples x (SAMPLE_WINDOW * (k + 1) + j))).detectedFreqHz =
        publishedFreq (countAtClose (runADC initAudio (samples x (SAMPLE_WINDOW * k)))
          (fun i => x (SAMPLE_WINDOW * k + i)))) := by
  refine ⟨?_, ?_, ?_⟩
  · intro s v h
    have hsw : (sampleStep s v).samplesInWindow < SAMPLE_WINDOW := by
      show (s.samplesInWindow + 1) % 65536 < 1024
      omega
    rw [ADC_vect, windowClose_of_lt _ hsw]
    rfl
  · intro n hn
    exact (runADC_openWindow initAudio x rfl rfl n hn).2.2.2
  · intro k j hj
    obtain ⟨hs, hz⟩ := runADC_windows x k
    obtain ⟨hs', hz'⟩ := runADC_windows x (k + 1)
    have hw := (runADC_window (runADC initAudio (samples x (SAMPLE_WINDOW * k)))
      (fun i => x (SAMPLE_WINDOW * k + i)) hs hz).1
    have hstart : runADC initAudio (samples x (SAMPLE_WINDOW * (k + 1))) =
        runADC (runADC initAudio (samples x (SAMPLE_WINDOW * k)))
          (samples (fun i => x (SAMPLE_WINDOW * k + i)) SAMPLE_WINDOW) := by
      rw [Nat.mul_succ, samples_add, runADC_append_list]
    rw [samples_add, runADC_append_list,
      (runADC_openWindow _ _ hs' hz' j hj).2.2.2, hstart, hw]

/-- C14, witness: 1500 samples of a period-31 input: the estimate is that of
the first window, 33 crossings, 4028. -/
theorem C14_published_estimate_witness :
    (runADC initAudio (samples (squareWave 31 15 20) (SAMPLE_WINDOW * (0 + 1) + 476))).detectedFreqHz
      = 4028 := by
  rw [(C14_published_estimate (squareWave 31 15 20)).2.2 0 476 (by decide)]
  have h33 : countAtClose initAudio (squareWave 31 15 20) = 33 := by
    rw [countAtClose_square initAudio (squareWave 31 15 20) 31 15 20 rfl rfl
      (by decide) (by decide) (by decide)
      (fun i _ hm => squareWave_pos 31 15 20 i hm)
      (fun i _ hm => squareWave_neg 31 15 20 i hm)]
    decide
  show publishedFreq (countAtClose initAudio (fun i => squareWave 31 15 20 (0 + i))) = 4028
  simp only [Nat.zero_add]
  rw [h33]
  decide

/-! ## C15 -/

/-- C15: for every game state and every prior grid, at every point of its
execution (every iteration budget), `drawGame` has made at least the 1200
assignments of the clear, and every assignment it has made addresses a cell
`(r, c)` with `0 ≤ r < 30` and `0 ≤ c < 40`. -/
theorem C15_writes_in_bounds (fuel : Nat) (st : GameState) (g : Grid) :
    1200 ≤ (drawGame fuel st g).2.writes.length ∧
    ∀ w, w ∈ (drawGame fuel st g).2.writes → 0 ≤ w.1 ∧ w.1 < 30 ∧ 0 ≤ w.2 ∧ w.2 < 40 :=
  ⟨drawGame_kept _ (length_kept 1200) fuel st g (Nat.le_of_eq (drawClear_length g).symm),
   drawGame_kept writesInBounds writesInBounds_kept fuel st g
    (drawClear_kept writesInBounds writesInBounds_kept _
      (fun _ hw => absurd hw (List.not_mem_nil _)))⟩

/-! ## C16 -/

/-- C16: after `setupVGA`, whatever the globals held before, every cell of
the 30 x 40 pixel grid holds 1 and `lineCounter`, `skipLine` and `PXL_OUT`
are 0. -/
theorem C16_setupVGA (s : VGAState) :
    (∀ i j, (setupVGA s).PXL_DATA i j = 1) ∧
    (setupVGA s).lineCounter = 0 ∧ (setupVGA s).skipLine = 0 ∧ (setupVGA s).PXL_OUT = 0 :=
  ⟨fun i j => clearGrid_cell s.PXL_DATA i j, rfl, rfl, rfl⟩

/-! ## C17 -/

/-- C17: after `setupVGA` every cell of the grid is 0 or 1; for every game
state and every prior grid content every cell is 0 or 1 when `drawGame` is
done (and wherever its execution stands after the clear), and `drawGame` is
done within a budget of 37 iterations per loop for every game state of 16-bit
values other than `birdY = 32766`; the timer handlers do not change a cell
(the ADC handler has no access to the grid). -/
theorem C17_binary_cells (s : VGAState) (fuel : Nat) (st : GameState) (g : Grid) :
    (∀ i j, (setupVGA s).PXL_DATA i j = 0 ∨ (setupVGA s).PXL_DATA i j = 1) ∧
    (∀ i j, (drawGame fuel st g).2.grid i j = 0 ∨ (drawGame fuel st g).2.grid i j = 1) ∧
    (37 ≤ fuel → st.wellFormed → st.birdY ≠ 32766 →
      (drawGame fuel st g).2.running = true) ∧
    (TIMER1_OVF_vect s).PXL_DATA = s.PXL_DATA ∧
    (TIMER2_COMPB_vect s).PXL_DATA = s.PXL_DATA :=
  ⟨fun i j => Or.inr (clearGrid_cell s.PXL_DATA i j),
   drawGame_kept gridBinary gridBinary_kept fuel st g
    (fun i j => Or.inr ((drawClear_grid g).2 i j)),
   fun hf hwf hb => drawGame_returns fuel hf st g hwf hb,
   rfl, rfl⟩

/-- C17, witness: a game in progress, drawn over a grid of arbitrary bytes:
`drawGame` returns and the cell under the bird is 0 or 1. -/
theorem C17_binary_cells_witness :
    (drawGame 37 ⟨9, 15, fun _ => ⟨20, 7, true⟩, 3, true⟩ (fun _ _ => 200)).2.running = true ∧
    ((drawGame 37 ⟨9, 15, fun _ => ⟨20, 7, true⟩, 3, true⟩ (fun _ _ => 200)).2.grid 15 6 = 0 ∨
     (drawGame 37 ⟨9, 15, fun _ => ⟨20, 7, true⟩, 3, true⟩ (fun _ _ => 200)).2.grid 15 6 = 1) :=
  ⟨(C17_binary_cells ⟨fun _ _ => 200, 0, 0, 0⟩ 37 ⟨9, 15, fun _ => ⟨20, 7, true⟩, 3, true⟩
      (fun _ _ => 200)).2.2.1 (Nat.le_refl 37)
      ⟨⟨by decide, by decide⟩,
        fun _ => ⟨(by decide : (-32768 : Int) ≤ 20), (by decide : (20 : Int) ≤ 32767)⟩⟩
      (by decide),
   (C17_binary_cells ⟨fun _ _ => 200, 0, 0, 0⟩ 37 ⟨9, 15, fun _ => ⟨20, 7, true⟩, 3, true⟩
      (fun _ _ => 200)).2.1 15 6⟩

/-! ## C18 -/

/-- C18: for every `lineCounter` in 35..514 the row index
`(lineCounter - 35) >> 4` lies in 0..29 and the dispatcher's reads stay inside
the grid; every row 0..29 is the index of some line of that range. -/
theorem C18_row_in_bounds :
    (∀ L : Int, 35 ≤ L → L < 515 → 0 ≤ rowIndex L ∧ rowIndex L < 30) ∧
    (∀ s : VGAState, 35 ≤ s.lineCounter → s.lineCounter < 515 →
      (pixelOutputs s).isSome = true) ∧
    (∀ r : Int, 0 ≤ r → r < 30 →
      ∃ L : Int, 35 ≤ L ∧ L < 515 ∧ rowIndex L = r) := by
  refine ⟨fun L h1 h2 => rowIndex_lt L h1 h2, ?_, ?_⟩
  · intro s h1 h2
    obtain ⟨hr0, hr1⟩ := rowIndex_lt s.lineCounter h1 h2
    have hrow : rowIndex s.lineCounter =
        (((⟨(rowIndex s.lineCounter).toNat, by omega⟩ : Fin SCREEN_H)).val : Int) := by
      show rowIndex s.lineCounter = ((rowIndex s.lineCounter).toNat : Int)
      omega
    rw [pixelOutputs_row s _ hrow]
    rfl
  · intro r h1 h2
    refine ⟨35 + 16 * r, by omega, by omega, ?_⟩
    rw [rowIndex_eq_div _ (by omega) (by omega)]
    omega

/-- C18, witness: line 514, the last of the range, reads row 29. -/
theorem C18_row_in_bounds_witness :
    rowIndex 514 = 29 ∧ (pixelOutputs ⟨fun _ _ => 1, 514, 0, 1⟩).isSome = true :=
  ⟨by decide, C18_row_in_bounds.2.1 ⟨fun _ _ => 1, 514, 0, 1⟩ (by decide) (by decide)⟩

/-! ## C19 -/

/-- C19: in every state reachable from the initial audio state under any
sequence of samples, `detectedFreqHz` is below 10000. -/
theorem C19_detectedFreqHz_bound (vals : List Nat) :
    (runADC initAudio vals).detectedFreqHz < 10000 :=
  runADC_detectedFreqHz_lt vals initAudio (by decide)

/-! ## C20 -/

/-- C20: a sample that counts as a crossing leaves `lastSample` positive, so
the next sample does not count; in every state reachable from the initial
state, between handler runs and after the counting part of the next run
(before the reset), `2 * zeroCrossings ≤ samplesInWindow + 1`; at window close
the count is at most 512 and the computed frequency, exact or in binary32, is
at most 62500. -/
theorem C20_half_rate (vals : List Nat) (v : Nat) :
    (∀ (s : AudioState) (v1 v2 : Nat), s.lastSample ≤ 0 ∧ centered v1 > 0 →
      ¬ ((ADC_vect s v1).lastSample ≤ 0 ∧ centered v2 > 0)) ∧
    2 * (runADC initAudio vals).zeroCrossings ≤ (runADC initAudio vals).samplesInWindow + 1 ∧
    2 * (sampleStep (runADC initAudio vals) v).zeroCrossings ≤
      (sampleStep (runADC initAudio vals) v).samplesInWindow + 1 ∧
    (sampleStep (runADC initAudio vals) v).zeroCrossings ≤ 512 ∧
    (sampleStep (runADC initAudio vals) v).zeroCrossings * 125000 ≤ 62500 * 1024 ∧
    (windowFreq (sampleStep (runADC initAudio vals) v).zeroCrossings).leNat 62500 = true := by
  have hinv := runADC_half vals initAudio
    ⟨fun _ => Nat.zero_le _, fun _ => Nat.le_refl _, (by decide : 0 < SAMPLE_WINDOW)⟩
  obtain ⟨h1, h2, _⟩ := ADC_vect_half (runADC initAudio vals) v hinv
  have h2' : (sampleStep (runADC initAudio vals) v).samplesInWindow ≤ 1024 := h2
  have h512 : (sampleStep (runADC initAudio vals) v).zeroCrossings ≤ 512 := by omega
  refine ⟨?_, ?_, h1, h512, by omega, windowFreq_le_table _ (by omega)⟩
  · intro s v1 v2 hc hn
    have hl : (ADC_vect s v1).lastSample = centered v1 := by
      rw [ADC_vect, windowClose]
      split <;> rfl
    rw [hl] at hn
    omega
  · by_cases hl : 0 < (runADC initAudio vals).lastSample
    · exact hinv.1 hl
    · have := hinv.2.1 (by omega)
      omega

/-- C20, witness: the input that alternates every sample reaches the bound:
512 crossings at the close of the first window. -/
theorem C20_half_rate_witness :
    (sampleStep (runADC initAudio (samples (squareWave 2 1 0) 1023))
      (squareWave 2 1 0 1023)).zeroCrossings ≤ 512 ∧
    countAtClose initAudio (squareWave 2 1 0) = 512 :=
  ⟨(C20_half_rate (samples (squareWave 2 1 0) 1023) (squareWave 2 1 0 1023)).2.2.2.1, by
    rw [countAtClose_square initAudio (squareWave 2 1 0) 2 1 0 rfl rfl
      (by decide) (by decide) (by decide)
      (fun i _ hm => squareWave_pos 2 1 0 i hm)
      (fun i _ hm => squareWave_neg 2 1 0 i hm)]
    decide⟩

end Firmware
